import Mathlib

/-!
# The USD/BRL quote server (`server/server.go`)

A shallow embedding of the Go program: the handler `Conexao.ServeHTTP`, the
fetcher `getExchangeRatesInfo`, the persister `saveExchangeRatesInfoInDatabase`
and the storage initializer `maybeCreateSQLLiteDatabase`, each written as a
pure function over an explicit world (a clock, the upstream service, the
SQLite store), together with the library behaviour they rely on
(`context.WithTimeout`, `encoding/json`, `database/sql`, `net/http`).

Go strings are Lean strings, instants and durations are natural numbers of
nanoseconds, a Go `(value, error)` result is an `Except` or a pair of options.
-/

namespace Server

/-! ## Errors -/

/-- The errors that the library calls of the program can return. -/
inductive Error
  | canceled            -- context.Canceled
  | deadlineExceeded    -- context.DeadlineExceeded
  | transport           -- the HTTP round trip failed (DNS, TCP, TLS, protocol)
  | bodyRead            -- reading the response body failed
  | jsonMalformed       -- json.SyntaxError: the text is not JSON
  | jsonType            -- json.UnmarshalTypeError: a value of the wrong kind
  | unknownDriver       -- sql.Open: no driver registered under that name
  | cannotOpen          -- SQLite cannot open the database file
  | noSuchTable         -- SQLite: the statement names a missing table
  | noSuchColumn        -- SQLite: the statement names a missing column
  | argumentCount       -- database/sql: wrong number of bound arguments
  | engine              -- any other failure reported by SQLite (I/O, lock, constraint)
  deriving DecidableEq, Repr

/-! ## Time and contexts (`context`, `time`) -/

/-- An instant or a duration, in nanoseconds. -/
abbrev Time := Nat

/-- The Go constant `time.Millisecond`, in nanoseconds. -/
def Millisecond : Nat := 1000000

/-- A `context.Context` seen from outside: its deadline, if it has one, and
the instant at which it (or an ancestor) is cancelled, if that ever happens. -/
structure Context where
  deadline : Option Time
  cancelAt : Option Time
  deriving DecidableEq, Repr

/-- The Go value `context.Background()`: no deadline, never cancelled. -/
def Context.Background : Context := ⟨none, none⟩

/-- The earlier of two optional instants, an absent one counting as never. -/
def earliest : Option Time → Option Time → Option Time
  | some a, some b => some (min a b)
  | some a, none => some a
  | none, some b => some b
  | none, none => none

/-- The instant at which the channel `ctx.Done()` is closed, if ever. -/
def Context.doneAt (ctx : Context) : Option Time :=
  earliest ctx.deadline ctx.cancelAt

/-- Whether `ctx.Done()` is closed at instant `t`. -/
def Context.Done (ctx : Context) (t : Time) : Bool :=
  match ctx.doneAt with
  | some d => decide (d ≤ t)
  | none => false

/-- The Go method `ctx.Err()` for a context that is done at instant `t`:
the cause that came first. -/
def Context.Err (ctx : Context) : Error :=
  match ctx.deadline, ctx.cancelAt with
  | some d, some c => if c < d then Error.canceled else Error.deadlineExceeded
  | none, some _ => Error.canceled
  | _, none => Error.deadlineExceeded

/-- The Go function `context.WithTimeout(parent, timeout)` called at instant
`now`, that is `WithDeadline(parent, now + timeout)`: when the parent's
deadline is already sooner the child keeps it, otherwise the child gets the
new deadline; cancellation of the parent always reaches the child. -/
def WithTimeout (parent : Context) (now : Time) (timeout : Nat) : Context :=
  let d := now + timeout
  match parent.deadline with
  | some cur => if cur < d then parent else { deadline := some d, cancelAt := parent.cancelAt }
  | none => { deadline := some d, cancelAt := parent.cancelAt }

/-- A blocking call started at `now` that needs `latency` to complete, run
under `ctx`: `none` when it completes before the context is done, otherwise
the instant at which it is abandoned. -/
def interruptedAt (ctx : Context) (now : Time) (latency : Nat) : Option Time :=
  match ctx.doneAt with
  | some d => if d ≤ now + latency then some (max d now) else none
  | none => none

/-! ## JSON (`encoding/json`) -/

/-- A JSON text that the scanner of `encoding/json` accepts, as the value it
denotes. Object members are kept in source order, duplicates included. -/
inductive JSONValue
  | null
  | bool (b : Bool)
  | number (literal : String)
  | string (s : String)
  | array (items : List JSONValue)
  | object (members : List (String × JSONValue))

/-- The bytes read from a response body, seen through the JSON scanner:
text that is not JSON, or the value a well-formed text denotes. -/
inductive Payload
  | malformed
  | value (v : JSONValue)

/-- The Go struct `CotacaoData`. -/
structure CotacaoData where
  Code : String
  Codein : String
  Name : String
  High : String
  Low : String
  VarBid : String
  PctChange : String
  Bid : String
  Ask : String
  Timestamp : String
  CreateDate : String
  deriving DecidableEq, Repr

/-- The Go struct `Cotacao`. -/
structure Cotacao where
  Data : CotacaoData
  deriving DecidableEq, Repr

/-- The Go struct `CotacaoDTO`. -/
structure CotacaoDTO where
  Bid : String
  deriving DecidableEq, Repr

/-- The zero value of `CotacaoData`: every string empty. -/
def CotacaoData.zero : CotacaoData := ⟨"", "", "", "", "", "", "", "", "", "", ""⟩

/-- The zero value of `Cotacao`, what `var exchangeRate Cotacao` declares. -/
def Cotacao.zero : Cotacao := ⟨CotacaoData.zero⟩

/-- The eleven fields of `CotacaoData`, in declaration order. -/
inductive Field
  | Code | Codein | Name | High | Low | VarBid | PctChange | Bid | Ask | Timestamp | CreateDate
  deriving DecidableEq, Repr

/-- The `json:"..."` tag of each field of `CotacaoData`. -/
def Field.tag : Field → String
  | .Code => "code"
  | .Codein => "codein"
  | .Name => "name"
  | .High => "high"
  | .Low => "low"
  | .VarBid => "varBid"
  | .PctChange => "pctChange"
  | .Bid => "bid"
  | .Ask => "ask"
  | .Timestamp => "timestamp"
  | .CreateDate => "create_date"

/-- All fields of `CotacaoData`, in declaration order. -/
def Field.all : List Field :=
  [.Code, .Codein, .Name, .High, .Low, .VarBid, .PctChange, .Bid, .Ask, .Timestamp, .CreateDate]

/-- Reading a field of `CotacaoData`. -/
def CotacaoData.get (d : CotacaoData) : Field → String
  | .Code => d.Code
  | .Codein => d.Codein
  | .Name => d.Name
  | .High => d.High
  | .Low => d.Low
  | .VarBid => d.VarBid
  | .PctChange => d.PctChange
  | .Bid => d.Bid
  | .Ask => d.Ask
  | .Timestamp => d.Timestamp
  | .CreateDate => d.CreateDate

/-- Assigning a field of `CotacaoData`. -/
def CotacaoData.set (d : CotacaoData) (f : Field) (s : String) : CotacaoData :=
  match f with
  | .Code => { d with Code := s }
  | .Codein => { d with Codein := s }
  | .Name => { d with Name := s }
  | .High => { d with High := s }
  | .Low => { d with Low := s }
  | .VarBid => { d with VarBid := s }
  | .PctChange => { d with PctChange := s }
  | .Bid => { d with Bid := s }
  | .Ask => { d with Ask := s }
  | .Timestamp => { d with Timestamp := s }
  | .CreateDate => { d with CreateDate := s }

/-- Case folding of one rune as `encoding/json` does it for member names
(the smallest rune of the simple-folding orbit). The field names of this
program are ASCII, and the only runes outside ASCII whose orbit reaches an
ASCII letter are the Kelvin sign U+212A (with K, k) and the long s U+017F
(with S, s); every other rune outside ASCII is left as it is, which never
makes it equal to a folded ASCII name. -/
def foldRune (c : Char) : Char :=
  if c.toNat = 0x212A then 'K'
  else if c.toNat = 0x17F then 'S'
  else c.toUpper

/-- Case folding of a member name. -/
def foldName (s : String) : List Char := s.data.map foldRune

/-- The field of `CotacaoData` a member name selects: the field whose tag is
exactly the name, otherwise the field whose tag equals it under folding. -/
def fieldByName (key : String) : Option Field :=
  match Field.all.find? (fun f => f.tag == key) with
  | some f => some f
  | none => Field.all.find? (fun f => foldName f.tag == foldName key)

/-- Whether a member name selects the only field of `Cotacao`, tagged
`USDBRL`. -/
def selectsData (key : String) : Bool :=
  key == "USDBRL" || foldName "USDBRL" == foldName key

/-- Decoding one JSON value into a string field: a string is stored, `null`
leaves the field as it is, anything else records an `UnmarshalTypeError` and
is skipped. The boolean is true when an error was recorded. -/
def storeString (d : CotacaoData) (f : Field) : JSONValue → CotacaoData × Bool
  | .string s => (d.set f s, false)
  | .null => (d, false)
  | _ => (d, true)

/-- One member of a JSON object decoded into `CotacaoData`: members that
select no field are skipped. -/
def memberCotacaoData (acc : CotacaoData × Bool) (kv : String × JSONValue) : CotacaoData × Bool :=
  match fieldByName kv.1 with
  | none => acc
  | some f => ((storeString acc.1 f kv.2).1, acc.2 || (storeString acc.1 f kv.2).2)

/-- Decoding a JSON value into a `CotacaoData`: the members of an object are
decoded in order, `null` leaves the struct as it is, anything else records an
`UnmarshalTypeError`. -/
def valueCotacaoData (d : CotacaoData) : JSONValue → CotacaoData × Bool
  | .object members => members.foldl memberCotacaoData (d, false)
  | .null => (d, false)
  | _ => (d, true)

/-- One member of a JSON object decoded into `Cotacao`. -/
def memberCotacao (acc : Cotacao × Bool) (kv : String × JSONValue) : Cotacao × Bool :=
  if selectsData kv.1 then
    (⟨(valueCotacaoData acc.1.Data kv.2).1⟩, acc.2 || (valueCotacaoData acc.1.Data kv.2).2)
  else acc

/-- Decoding a JSON value into a `Cotacao`. -/
def valueCotacao (c : Cotacao) : JSONValue → Cotacao × Bool
  | .object members => members.foldl memberCotacao (c, false)
  | .null => (c, false)
  | _ => (c, true)

/-- The Go call `json.Unmarshal(data, &exchangeRate)`: a text that is not JSON
is a syntax error and nothing is decoded; otherwise the whole value is
decoded and the first recorded type error, if any, is returned. -/
def jsonUnmarshal (data : Payload) (target : Cotacao) : Cotacao × Option Error :=
  match data with
  | .malformed => (target, some Error.jsonMalformed)
  | .value v =>
    if (valueCotacao target v).2 then ((valueCotacao target v).1, some Error.jsonType)
    else ((valueCotacao target v).1, none)

/-- The sixteen hexadecimal digits used by the encoder. -/
def hex : List Char := "0123456789abcdef".data

/-- The bytes below 0x80 that the encoder copies as they are when HTML
escaping is on: the printable ASCII characters and DEL, except the double
quote, the backslash, and the three characters escaped for HTML. -/
def htmlSafe (c : Char) : Bool :=
  decide (0x20 ≤ c.toNat) && decide (c.toNat < 0x80) &&
    !(c == '"' || c == '\\' || c == '<' || c == '>' || c == '&')

/-- The encoding of one rune inside a JSON string, as `json.Marshal` writes it
(HTML escaping on; the short forms for backspace and form feed are those of
recent Go releases). -/
def appendRune (c : Char) : List Char :=
  if c.toNat < 0x80 then
    if htmlSafe c then [c]
    else if c == '\\' || c == '"' then ['\\', c]
    else if c.toNat = 0x08 then ['\\', 'b']
    else if c.toNat = 0x0C then ['\\', 'f']
    else if c == '\n' then ['\\', 'n']
    else if c == '\r' then ['\\', 'r']
    else if c == '\t' then ['\\', 't']
    else ['\\', 'u', '0', '0', hex.getD (c.toNat / 16) '0', hex.getD (c.toNat % 16) '0']
  else if c.toNat = 0x2028 ∨ c.toNat = 0x2029 then
    ['\\', 'u', '2', '0', '2', hex.getD (c.toNat % 16) '0']
  else [c]

/-- The encoding of a Go string as a JSON string. -/
def appendString (s : String) : List Char :=
  '"' :: (s.data.flatMap appendRune ++ ['"'])

/-- The Go call `json.Marshal(retval)` for a `CotacaoDTO`: an object with the
single member `bid`. Encoding a struct of one string never fails. -/
def jsonMarshal (v : CotacaoDTO) : String × Option Error :=
  (String.mk ('{' :: ("\"bid\":".data ++ appendString v.Bid ++ ['}'])), none)

/-! ## The upstream service (`net/http`) -/

/-- What the quote service does with one request: how long the response
header takes (or the transport takes to give up), whether the round trip
succeeds, how long the body then takes, whether reading it succeeds, and the
bytes of the body. The status code is not part of it: the program never
looks at it. -/
structure Upstream where
  headerLatency : Nat
  roundTripOK : Bool
  bodyLatency : Nat
  readOK : Bool
  payload : Payload

/-- An outbound request built by `http.NewRequestWithContext`. -/
structure Request where
  ctx : Context
  method : String
  url : String
  deriving DecidableEq, Repr

/-- The Go call `http.NewRequestWithContext(ctx, method, url, nil)`. It fails
only on a nil context, an invalid method or an unparsable URL; the program
passes a live context and two valid constants, so it succeeds. -/
def NewRequestWithContext (ctx : Context) (method url : String) : Request × Option Error :=
  (⟨ctx, method, url⟩, none)

/-- The Go call `http.DefaultClient.Do(req)` started at `now`: it is abandoned
when the request's context is done before the response header is in,
otherwise it reports what the transport did. Returns the error, if any, and
the instant of return. -/
def clientDo (req : Request) (now : Time) (up : Upstream) : Option Error × Time :=
  match interruptedAt req.ctx now up.headerLatency with
  | some t => (some req.ctx.Err, t)
  | none =>
    if up.roundTripOK then (none, now + up.headerLatency)
    else (some Error.transport, now + up.headerLatency)

/-- The Go call `io.ReadAll(res.Body)` started at `now`: the body of a
response is read under the context of its request. -/
def ReadAll (req : Request) (now : Time) (up : Upstream) : Payload × Option Error × Time :=
  match interruptedAt req.ctx now up.bodyLatency with
  | some t => (Payload.malformed, some req.ctx.Err, t)
  | none =>
    if up.readOK then (up.payload, none, now + up.bodyLatency)
    else (Payload.malformed, some Error.bodyRead, now + up.bodyLatency)

/-- An `http.ResponseWriter`: the header map, the status line once written,
and the body written so far. -/
structure ResponseWriter where
  header : List (String × String)
  status : Option Nat
  body : String
  deriving DecidableEq, Repr

/-- A fresh response writer, as the HTTP server hands it to a handler. -/
def ResponseWriter.fresh : ResponseWriter := ⟨[], none, ""⟩

/-- The Go call `w.Header().Set(key, value)`; it has no effect on the response
once the status line is written. -/
def ResponseWriter.HeaderSet (w : ResponseWriter) (key value : String) : ResponseWriter :=
  match w.status with
  | none => { w with header := w.header.filter (fun kv => kv.1 != key) ++ [(key, value)] }
  | some _ => w

/-- The Go call `w.WriteHeader(code)`; only the first call counts. -/
def ResponseWriter.WriteHeader (w : ResponseWriter) (code : Nat) : ResponseWriter :=
  match w.status with
  | none => { w with status := some code }
  | some _ => w

/-- The Go call `w.Write(data)`; it writes the status line 200 first when
none was written. -/
def ResponseWriter.Write (w : ResponseWriter) (data : String) : ResponseWriter :=
  { w.WriteHeader 200 with body := (w.WriteHeader 200).body ++ data }

/-- The Go constant `http.StatusInternalServerError`. -/
def StatusInternalServerError : Nat := 500

/-- The Go constant `http.StatusOK`. -/
def StatusOK : Nat := 200

/-! ## The store (`database/sql` over SQLite) -/

/-- A column definition of a `CREATE TABLE` statement. -/
structure Column where
  name : String
  type : String
  notNull : Bool
  primaryKey : Bool
  deriving DecidableEq, Repr

/-- A stored row: its rowid (the `id` column of the rates table is an alias
of it) and the text stored under each column named by the insert. -/
structure Row where
  id : Nat
  cells : List (String × String)
  deriving DecidableEq, Repr

/-- A table of the database: name, schema and rows in insertion order. -/
structure Table where
  name : String
  columns : List Column
  rows : List Row
  deriving DecidableEq, Repr

/-- The content of a SQLite database file: its tables. -/
abbrev Database := List Table

/-- The first table of that name. -/
def Database.table (db : Database) (name : String) : Option Table :=
  db.find? (fun t => t.name == name)

/-- The number of tables of that name. -/
def Database.count (db : Database) (name : String) : Nat :=
  db.countP (fun t => t.name == name)

/-- The database with `row` appended to the first table of that name. -/
def Database.append (name : String) (row : Row) : Database → Database
  | [] => []
  | t :: ts =>
    if t.name == name then { t with rows := t.rows ++ [row] } :: ts
    else t :: Database.append name row ts

/-- The rowid SQLite gives to a new row of a rowid table: one more than the
largest in use (1 in an empty table). -/
def Table.nextId (t : Table) : Nat :=
  (t.rows.map (fun r => r.id)).foldl max 0 + 1

/-- A statement `CREATE TABLE IF NOT EXISTS name (columns)`. -/
structure CreateStmt where
  table : String
  columns : List Column
  deriving DecidableEq, Repr

/-- A statement `INSERT INTO table(columns) VALUES ($1, ..., $n)`, one
placeholder per column, numbered in order. -/
structure InsertStmt where
  table : String
  columns : List String
  deriving DecidableEq, Repr

/-- The state of the file `exchange.db` on disk: missing, a database file,
or a path that `os.Stat` cannot inspect (an error other than "does not
exist"), behind which a database may or may not lie. -/
inductive FileState
  | absent
  | present (db : Database)
  | uninspectable (db : Option Database)
  deriving DecidableEq, Repr

/-- The database a connection sees behind a file state, when there is one. -/
def FileState.database : FileState → Option Database
  | .absent => none
  | .present db => some db
  | .uninspectable db => db

/-- The outcome of `os.Stat`. -/
inductive StatError
  | notExist
  | other
  deriving DecidableEq, Repr

/-- The Go call `os.Stat(fileName)`, reduced to its error. -/
def Stat (fs : FileState) : Option StatError :=
  match fs with
  | .absent => some StatError.notExist
  | .present _ => none
  | .uninspectable _ => some StatError.other

/-- The Go function `os.IsNotExist`. -/
def IsNotExist : Option StatError → Bool
  | some StatError.notExist => true
  | _ => false

/-- A `*sql.DB` handle: the driver and the data source it was opened on. -/
structure DB where
  driverName : String
  dataSourceName : String
  deriving DecidableEq, Repr

/-- The drivers registered with `database/sql`: the blank import of
`github.com/mattn/go-sqlite3` registers `sqlite3`. -/
def drivers : List String := ["sqlite3"]

/-- The Go call `sql.Open(driverName, dataSourceName)`: it only looks the
driver up and touches no file. -/
def sqlOpen (driverName dataSourceName : String) : Option DB × Option Error :=
  if driverName ∈ drivers then (some ⟨driverName, dataSourceName⟩, none)
  else (none, some Error.unknownDriver)

/-- What the SQLite engine does during one call of the program: how long
each statement takes to return, whether it hits a failure of its own (I/O,
lock, constraint), and whether a statement that is asked to stop while it
runs (`sqlite3_interrupt`) aborts or runs to its end all the same. -/
structure Engine where
  prepareLatency : Nat
  prepareOK : Bool
  execLatency : Nat
  execOK : Bool
  yieldsToInterrupt : Bool

/-- How SQLite fares with the create statement: it carries it out, it opens
the file (creating an empty one when none is there) and then fails, or it
cannot open the file at all. -/
inductive CreateRun
  | completes
  | failsAfterOpen
  | cannotOpen
  deriving DecidableEq, Repr

/-- The Go call `db.Exec(create)` for a `CREATE TABLE IF NOT EXISTS`
statement, run against the file. Opening the connection creates a missing
file, empty (an empty file is a database without tables); the statement then
adds the table unless one of that name exists. A statement that fails
changes no table, but the empty file it made SQLite create stays behind;
only when the file cannot be opened at all is a missing file still missing
afterwards. -/
def execCreate (run : CreateRun) (stmt : CreateStmt) (fs : FileState) :
    Option Error × FileState :=
  match fs with
  | .uninspectable _ => (some Error.cannotOpen, fs)
  | .absent =>
    match run with
    | .completes => (none, FileState.present [⟨stmt.table, stmt.columns, []⟩])
    | .failsAfterOpen => (some Error.engine, FileState.present [])
    | .cannotOpen => (some Error.cannotOpen, fs)
  | .present db =>
    match run with
    | .completes =>
      if (db.table stmt.table).isSome then (none, fs)
      else (none, FileState.present (db ++ [⟨stmt.table, stmt.columns, []⟩]))
    | .failsAfterOpen => (some Error.engine, fs)
    | .cannotOpen => (some Error.cannotOpen, fs)

/-- The Go call `db.PrepareContext(ctx, query)` for an insert statement,
started at `now`: it fails at once under a context that is already done
(`database/sql` looks at the context before it takes a connection);
otherwise the driver compiles the statement without looking at the context
again, and fails when the table or one of the columns is missing or the
engine fails. Returns the error, if any, and the instant of return. -/
def PrepareContext (ctx : Context) (now : Time) (eng : Engine) (db : Database)
    (stmt : InsertStmt) : Option Error × Time :=
  if ctx.Done now then (some ctx.Err, now)
  else
    match db.table stmt.table with
    | none => (some Error.noSuchTable, now + eng.prepareLatency)
    | some t =>
      if stmt.columns.all (fun c => (t.columns.map (fun k => k.name)).contains c) then
        if eng.prepareOK then (none, now + eng.prepareLatency)
        else (some Error.engine, now + eng.prepareLatency)
      else (some Error.noSuchColumn, now + eng.prepareLatency)

/-- The Go call `db.Prepare(query)`, which `database/sql` defines as
`db.PrepareContext(context.Background(), query)`. -/
def Prepare (now : Time) (eng : Engine) (db : Database) (stmt : InsertStmt) :
    Option Error × Time :=
  PrepareContext Context.Background now eng db stmt

/-- The Go call `stmt.ExecContext(ctx, args...)` for a prepared insert,
started at `now`. It fails at once under a context that is already done
(`database/sql` looks at the context before it takes a connection). When the
context becomes done while the statement runs, the driver only asks SQLite
to interrupt it and waits for SQLite to return: a statement that aborts is
rolled back and reported as the context's error, a statement that runs to
its end all the same is reported with its own result, so an insert that
outlasts the deadline can still succeed and store its row. A statement that
is not aborted either fails as a whole or appends one row that holds the
arguments under the statement's columns, position by position. Returns the
error, if any, the database afterwards and the instant of return, which is
SQLite's and not the deadline. -/
def ExecContext (ctx : Context) (now : Time) (eng : Engine) (db : Database)
    (stmt : InsertStmt) (args : List String) : Option Error × Database × Time :=
  if ctx.Done now then (some ctx.Err, db, now)
  else if args.length = stmt.columns.length then
    match db.table stmt.table with
    | none => (some Error.noSuchTable, db, now + eng.execLatency)
    | some t =>
      if ctx.Done (now + eng.execLatency) && eng.yieldsToInterrupt then
        (some ctx.Err, db, now + eng.execLatency)
      else if eng.execOK then
        (none, Database.append stmt.table ⟨t.nextId, stmt.columns.zip args⟩ db,
          now + eng.execLatency)
      else (some Error.engine, db, now + eng.execLatency)
  else (some Error.argumentCount, db, now)

/-! ## The program -/

/-- The result of a Go call that either returns or panics. -/
inductive Result (α : Type)
  | returned (a : α)
  | panicked (msg : String)

/-- The Go struct `Conexao`; `dbConn` is a pointer and may be nil. -/
structure Conexao where
  dbConn : Option DB
  deriving DecidableEq, Repr

/-- The Go function `existsDB`, on the state of the named file. -/
def existsDB (fs : FileState) : Bool :=
  if IsNotExist (Stat fs) then false
  else true

/-- The constant `create` of `maybeCreateSQLLiteDatabase`. -/
def create : CreateStmt :=
  ⟨"rates",
    [⟨"id", "INTEGER", true, true⟩, ⟨"codein", "TEXT", true, false⟩,
     ⟨"name", "TEXT", true, false⟩, ⟨"high", "TEXT", true, false⟩,
     ⟨"low", "TEXT", true, false⟩, ⟨"var_bid", "TEXT", true, false⟩,
     ⟨"pct_change", "TEXT", true, false⟩, ⟨"bid", "TEXT", true, false⟩,
     ⟨"ask", "TEXT", true, false⟩, ⟨"timestamp", "TEXT", true, false⟩,
     ⟨"create_date", "TEXT", true, false⟩]⟩

/-- The Go function `maybeCreateSQLLiteDatabase`. `fs` is the state of the
file `exchange.db`, which the function both stats and opens; `run` says how
SQLite fares with the create statement. Returns the handle, the error and
the state of the file afterwards. -/
def maybeCreateSQLLiteDatabase (run : CreateRun) (fs : FileState) :
    Option DB × Option Error × FileState :=
  let dbAlreadyExists := existsDB fs
  match sqlOpen "sqlite3" "exchange.db" with
  | (_, some err) => (none, some err, fs)
  | (db, none) =>
    if !dbAlreadyExists then
      match execCreate run create fs with
      | (some err, fs1) => (none, some err, fs1)
      | (none, fs1) => (db, none, fs1)
    else (db, none, fs)

/-- The Go function `getExchangeRatesInfo`, called at instant `now`. Returns
the quote or the error, and the instant of return. -/
def getExchangeRatesInfo (ctx : Context) (now : Time) (up : Upstream) :
    Except Error Cotacao × Time :=
  let ctxInternal := WithTimeout ctx now (200 * Millisecond)
  match NewRequestWithContext ctxInternal "GET"
      "https://economia.awesomeapi.com.br/json/last/USD-BRL" with
  | (_, some err) => (.error err, now)
  | (req, none) =>
    match clientDo req now up with
    | (some err, t1) => (.error err, t1)
    | (none, t1) =>
      match ReadAll req t1 up with
      | (_, some err, t2) => (.error err, t2)
      | (data, none, t2) =>
        match jsonUnmarshal data Cotacao.zero with
        | (_, some err) => (.error err, t2)
        | (exchangeRate, none) => (.ok exchangeRate, t2)

/-- The constant `insertSTMT` of `saveExchangeRatesInfoInDatabase`. -/
def insertSTMT : InsertStmt :=
  ⟨"rates", ["codein", "name", "high", "low", "var_bid", "pct_change", "bid", "ask",
    "timestamp", "create_date"]⟩

/-- The Go function `saveExchangeRatesInfoInDatabase`, called at instant `now`
on the database behind the handle. Calling a method on a nil handle panics.
Returns the error, if any, the database afterwards and the instant of
return. -/
def saveExchangeRatesInfoInDatabase (ctx : Context) (conn : Conexao) (exchangeRate : Cotacao)
    (now : Time) (eng : Engine) (db : Database) : Result (Option Error × Database × Time) :=
  let ctxInternal := WithTimeout ctx now (10 * Millisecond)
  match conn.dbConn with
  | none => .panicked "invalid memory address or nil pointer dereference"
  | some _ =>
    match Prepare now eng db insertSTMT with
    | (some err, t1) => .returned (some err, db, t1)
    | (none, t1) =>
      match ExecContext ctxInternal t1 eng db insertSTMT
          [exchangeRate.Data.Codein, exchangeRate.Data.Name, exchangeRate.Data.High,
           exchangeRate.Data.Low, exchangeRate.Data.VarBid, exchangeRate.Data.PctChange,
           exchangeRate.Data.Bid, exchangeRate.Data.Ask, exchangeRate.Data.Timestamp,
           exchangeRate.Data.CreateDate] with
      | (some err, db1, t2) => .returned (some err, db1, t2)
      | (none, db1, t2) => .returned (none, db1, t2)

/-- The stages a request can go through. -/
inductive Stage
  | fetch
  | persist
  deriving DecidableEq, Repr

/-- What one call of the handler leaves behind: whether it panicked, the
response written, the database, the clock and the stages it invoked, in
order. -/
structure Served where
  panic : Option String
  w : ResponseWriter
  db : Database
  now : Time
  calls : List Stage
  deriving DecidableEq, Repr

/-- The Go method `Conexao.ServeHTTP`, called at instant `now` with the
response writer `w` and the inbound request `r`. -/
def Conexao.ServeHTTP (conn : Conexao) (w : ResponseWriter) (r : Request) (now : Time)
    (up : Upstream) (eng : Engine) (db : Database) : Served :=
  match conn.dbConn with
  | none => ⟨some "Not possible to connect to database", w, db, now, []⟩
  | some _ =>
    let ctx := r.ctx
    match getExchangeRatesInfo ctx now up with
    | (.error _, t1) => ⟨none, w.WriteHeader StatusInternalServerError, db, t1, [.fetch]⟩
    | (.ok exchangeRate, t1) =>
      match saveExchangeRatesInfoInDatabase ctx conn exchangeRate t1 eng db with
      | .panicked msg => ⟨some msg, w, db, t1, [.fetch, .persist]⟩
      | .returned (some _, db1, t2) =>
        ⟨none, w.WriteHeader StatusInternalServerError, db1, t2, [.fetch, .persist]⟩
      | .returned (none, db1, t2) =>
        let retval : CotacaoDTO := ⟨exchangeRate.Data.Bid⟩
        match jsonMarshal retval with
        | (_, some _) =>
          ⟨none, w.WriteHeader StatusInternalServerError, db1, t2, [.fetch, .persist]⟩
        | (retvalJSON, none) =>
          ⟨none, ((w.HeaderSet "Content-Type" "application/json").WriteHeader StatusOK).Write
            retvalJSON, db1, t2, [.fetch, .persist]⟩

/-! ## Reference inputs -/

/-- A quote with the bid 5.42. -/
def sampleData : CotacaoData :=
  ⟨"USD", "BRL", "Dólar Americano/Real Brasileiro", "5.45", "5.40", "0.01", "0.18", "5.42",
    "5.43", "1700000000", "2023-11-14 19:13:20"⟩

/-- The body of the expected shape that carries a quote: an object whose
member `USDBRL` is an object with the eleven members, each a string. -/
def quoteBody (d : CotacaoData) : JSONValue :=
  .object [("USDBRL", .object (Field.all.map (fun f => (f.tag, JSONValue.string (d.get f)))))]

/-- An upstream that answers in 30 ms with the given body. -/
def promptUpstream (p : Payload) : Upstream :=
  ⟨20 * Millisecond, true, 10 * Millisecond, true, p⟩

/-- An engine that prepares and executes in a millisecond each. -/
def promptEngine : Engine := ⟨Millisecond, true, Millisecond, true, true⟩

/-- An inbound request whose context has no deadline and is never cancelled. -/
def inbound : Request := ⟨Context.Background, "GET", "/cotacao"⟩

/-- The database right after initialization on a missing file. -/
def freshDatabase : Database := [⟨"rates", create.columns, []⟩]

/-- The handler as `main` builds it. -/
def liveConn : Conexao := ⟨some ⟨"sqlite3", "exchange.db"⟩⟩

/-- The cells the insert statement binds for a quote: its columns paired,
position by position, with the arguments of `ExecContext`. -/
def boundCells (q : Cotacao) : List (String × String) :=
  [("codein", q.Data.Codein), ("name", q.Data.Name), ("high", q.Data.High),
   ("low", q.Data.Low), ("var_bid", q.Data.VarBid), ("pct_change", q.Data.PctChange),
   ("bid", q.Data.Bid), ("ask", q.Data.Ask), ("timestamp", q.Data.Timestamp),
   ("create_date", q.Data.CreateDate)]

/-- The rows of the rates table; none when the table is missing. -/
def ratesRows (db : Database) : List Row :=
  match db.table "rates" with
  | some t => t.rows
  | none => []

/-- An engine whose insert fails (a full disk, a lock). -/
def failingEngine : Engine := ⟨Millisecond, true, Millisecond, false, true⟩

/-- The sample quote under another currency pair code. -/
def euroData : CotacaoData := { sampleData with Code := "EUR" }

/-- An engine whose prepare is held up for a second (a locked database). -/
def blockedEngine : Engine := ⟨1000 * Millisecond, true, Millisecond, true, true⟩

/-- A caller context with a deadline at 5 ms that is cancelled at instant 0. -/
def cancelledCaller : Context := ⟨some (5 * Millisecond), some 0⟩

/-- Whether a JSON value can be decoded into a string: a string or `null`. -/
def JSONValue.fitsString : JSONValue → Bool
  | .string _ => true
  | .null => true
  | _ => false

/-- The strings a list of members gives under names that select the field
`f`, in order. -/
def stringsFor (f : Field) (members : List (String × JSONValue)) : List String :=
  members.filterMap (fun kv =>
    if fieldByName kv.1 = some f then
      match kv.2 with
      | .string s => some s
      | _ => none
    else none)

/-- The members of all the objects a list of members gives under names that
select `USDBRL`, in order. -/
def dataMembers (members : List (String × JSONValue)) : List (String × JSONValue) :=
  members.flatMap (fun kv =>
    if selectsData kv.1 then
      match kv.2 with
      | .object inner => inner
      | _ => []
    else [])

/-- The last element of a list, or `x` when the list is empty. -/
def lastOr (x : String) : List String → String
  | [] => x
  | s :: rest => lastOr s rest

/-- What a JSON body says about the field `f` of the quote: the last string
given for it inside a `USDBRL` member, the empty string when there is none. -/
def bodyField (f : Field) : JSONValue → String
  | .object members => lastOr "" (stringsFor f (dataMembers members))
  | _ => ""

/-- The body of the quote service when it refuses a request. -/
def refusalBody : JSONValue :=
  .object [("status", .number "404"), ("code", .string "CoinNotExists"),
    ("message", .string "moeda nao encontrada USD-BRLX")]

/-- Whether every member of a `USDBRL` object that selects a field of the
quote is a string or `null`. -/
def membersFit (inner : List (String × JSONValue)) : Bool :=
  inner.all (fun kv =>
    match fieldByName kv.1 with
    | none => true
    | some _ => kv.2.fitsString)

/-- Whether a JSON value given for `USDBRL` decodes without a type error. -/
def dataFits : JSONValue → Bool
  | .object inner => membersFit inner
  | .null => true
  | _ => false

/-- Whether a JSON body decodes into a `Cotacao` without a type error: it is
`null` or an object, each of its members that selects `USDBRL` is `null` or
an object, and each member of such an object that selects a field of the
quote is `null` or a string. Members that select nothing are not looked at. -/
def bodyFits : JSONValue → Bool
  | .object members => members.all (fun kv => if selectsData kv.1 then dataFits kv.2 else true)
  | .null => true
  | _ => false

set_option maxRecDepth 100000

/-! ## Decoding -/

theorem fieldByName_tag (f : Field) : fieldByName f.tag = some f := by
  cases f <;> rfl

theorem selectsData_USDBRL : selectsData "USDBRL" = true := by decide

theorem get_set (d : CotacaoData) (f g : Field) (s : String) :
    (d.set f s).get g = if f = g then s else d.get g := by
  cases f <;> cases g <;> rfl

theorem valueCotacaoData_quoteBody (d0 d : CotacaoData) :
    valueCotacaoData d0 (.object (Field.all.map (fun f => (f.tag, JSONValue.string (d.get f)))))
      = (d, false) := by
  simp [valueCotacaoData, Field.all, List.foldl, memberCotacaoData, fieldByName_tag, storeString,
    CotacaoData.set, CotacaoData.get]

theorem jsonUnmarshal_quoteBody (d : CotacaoData) :
    jsonUnmarshal (.value (quoteBody d)) Cotacao.zero = (⟨d⟩, none) := by
  simp [jsonUnmarshal, quoteBody, valueCotacao, List.foldl, memberCotacao, selectsData_USDBRL,
    valueCotacaoData_quoteBody]

/-! ## The store -/

theorem table_append (name : String) (row : Row) (db : Database) :
    (Database.append name row db).table name
      = (db.table name).map (fun t => { t with rows := t.rows ++ [row] }) := by
  induction db with
  | nil => rfl
  | cons t ts ih =>
    by_cases h : (t.name == name) = true
    · simp [Database.append, Database.table, List.find?, h]
    · simp only [Bool.not_eq_true] at h
      simp only [Database.table] at ih
      simp [Database.append, Database.table, List.find?, h, ih]

theorem table_append_other (name other : String) (row : Row) (db : Database)
    (hne : other ≠ name) :
    (Database.append name row db).table other = db.table other := by
  induction db with
  | nil => rfl
  | cons t ts ih =>
    by_cases h : (t.name == name) = true
    · have hn : t.name = name := by simpa using h
      have : (t.name == other) = false := by
        simp [hn]; exact fun h => hne h.symm
      simp [Database.append, Database.table, List.find?, h, this]
    · simp only [Bool.not_eq_true] at h
      simp only [Database.table] at ih
      by_cases h2 : (t.name == other) = true
      · simp [Database.append, Database.table, List.find?, h, h2]
      · simp only [Bool.not_eq_true] at h2
        simp [Database.append, Database.table, List.find?, h, h2, ih]

/-! ## Deadlines -/

theorem WithTimeout_deadline (ctx : Context) (now : Time) (d : Nat) :
    (WithTimeout ctx now d).deadline = earliest ctx.deadline (some (now + d)) := by
  unfold WithTimeout
  cases hd : ctx.deadline with
  | none => simp [earliest]
  | some cur =>
    by_cases hlt : cur < now + d
    · simp [earliest, hlt, hd, Nat.min_eq_left (Nat.le_of_lt hlt)]
    · simp [earliest, hlt, Nat.min_eq_right (Nat.le_of_not_lt hlt)]

theorem WithTimeout_cancelAt (ctx : Context) (now : Time) (d : Nat) :
    (WithTimeout ctx now d).cancelAt = ctx.cancelAt := by
  unfold WithTimeout
  cases hd : ctx.deadline with
  | none => simp
  | some cur =>
    by_cases hlt : cur < now + d <;> simp [hlt]

theorem WithTimeout_doneAt (ctx : Context) (now d : Nat) :
    ∃ t : Nat, (WithTimeout ctx now d).doneAt = some t ∧ t ≤ now + d := by
  unfold Context.doneAt
  rw [WithTimeout_deadline, WithTimeout_cancelAt]
  cases ctx.deadline <;> cases ctx.cancelAt <;> simp [earliest]

theorem interruptedAt_of_late (ctx : Context) (now latency t : Nat)
    (hdone : ctx.doneAt = some t) (hlate : t ≤ now + latency) :
    interruptedAt ctx now latency = some (max t now) := by
  simp [interruptedAt, hdone, hlate]

theorem interruptedAt_Background (now latency : Nat) :
    interruptedAt Context.Background now latency = none := rfl

theorem interruptedAt_shorter (ctx : Context) (now a b : Nat)
    (h : interruptedAt ctx now (a + b) = none) :
    interruptedAt ctx now a = none ∧ interruptedAt ctx (now + a) b = none := by
  unfold interruptedAt at h ⊢
  cases hd : ctx.doneAt with
  | none => exact ⟨rfl, rfl⟩
  | some d =>
    simp only [hd] at h ⊢
    have hlt : ¬ (d ≤ now + (a + b)) := by
      intro hle
      rw [if_pos hle] at h
      cases h
    have hd1 : ¬ (d ≤ now + a) := fun hle => hlt (Nat.le_trans hle (by omega))
    have hd2 : ¬ (d ≤ now + a + b) := fun hle => hlt (Nat.le_trans hle (by omega))
    rw [if_neg hd1, if_neg hd2]
    exact ⟨rfl, rfl⟩


/-! ## The fetcher -/

theorem fetch_ok_decoded (ctx : Context) (now : Time) (up : Upstream) (q : Cotacao) (t : Time)
    (h : getExchangeRatesInfo ctx now up = (.ok q, t)) :
    jsonUnmarshal up.payload Cotacao.zero = (q, none) ∧ up.roundTripOK = true ∧
      up.readOK = true ∧ t = now + up.headerLatency + up.bodyLatency := by
  unfold getExchangeRatesInfo at h
  simp only [NewRequestWithContext, clientDo, ReadAll] at h
  cases h1 : interruptedAt (WithTimeout ctx now (200 * Millisecond)) now up.headerLatency with
  | some t1 => simp [h1] at h
  | none =>
    cases hrt : up.roundTripOK with
    | false => simp [h1, hrt] at h
    | true =>
      cases h2 : interruptedAt (WithTimeout ctx now (200 * Millisecond))
          (now + up.headerLatency) up.bodyLatency with
      | some t2 => simp [h1, hrt, h2] at h
      | none =>
        cases hrd : up.readOK with
        | false => simp [h1, hrt, h2, hrd] at h
        | true =>
          cases hj : jsonUnmarshal up.payload Cotacao.zero with
          | mk q1 e1 =>
            cases e1 with
            | some e => simp [h1, hrt, h2, hrd, hj] at h
            | none =>
              simp [h1, hrt, h2, hrd, hj] at h
              refine ⟨?_, rfl, rfl, h.2.symm⟩
              rw [h.1]

theorem fetch_completes (ctx : Context) (now : Time) (up : Upstream)
    (hrt : up.roundTripOK = true) (hrd : up.readOK = true)
    (hlive : interruptedAt (WithTimeout ctx now (200 * Millisecond)) now
      (up.headerLatency + up.bodyLatency) = none) :
    getExchangeRatesInfo ctx now up =
      (match jsonUnmarshal up.payload Cotacao.zero with
        | (_, some err) => .error err
        | (q, none) => .ok q, now + up.headerLatency + up.bodyLatency) := by
  obtain ⟨h1, h2⟩ := interruptedAt_shorter _ _ _ _ hlive
  unfold getExchangeRatesInfo
  simp only [NewRequestWithContext, clientDo, ReadAll, h1, h2, hrt, hrd, if_true]
  cases hj : jsonUnmarshal up.payload Cotacao.zero with
  | mk q1 e1 => cases e1 <;> rfl

theorem fetch_fails (ctx : Context) (now : Time) (up : Upstream)
    (h : up.roundTripOK = false ∨ up.readOK = false ∨
      200 * Millisecond ≤ up.headerLatency + up.bodyLatency ∨
      (jsonUnmarshal up.payload Cotacao.zero).2 ≠ none) :
    ∃ e t, getExchangeRatesInfo ctx now up = (.error e, t) := by
  cases hres : getExchangeRatesInfo ctx now up with
  | mk res t =>
    cases res with
    | error e => exact ⟨e, t, rfl⟩
    | ok q =>
      exfalso
      have hq := fetch_ok_decoded ctx now up q t hres
      obtain ⟨hj, hrt, hrd, _⟩ := hq
      rcases h with h | h | h | h
      · rw [hrt] at h; cases h
      · rw [hrd] at h; cases h
      · unfold getExchangeRatesInfo at hres
        simp only [NewRequestWithContext, clientDo, ReadAll] at hres
        obtain ⟨d, hd, hle⟩ := WithTimeout_doneAt ctx now (200 * Millisecond)
        cases h1 : interruptedAt (WithTimeout ctx now (200 * Millisecond)) now
            up.headerLatency with
        | some t1 => simp [h1] at hres
        | none =>
          have h2 := interruptedAt_of_late (WithTimeout ctx now (200 * Millisecond))
            (now + up.headerLatency) up.bodyLatency d hd (by omega)
          simp [h1, hrt, h2] at hres
      · rw [hj] at h; exact h rfl


/-! ## The persister -/

theorem Background_Done (t : Nat) : Context.Background.Done t = false := rfl

theorem Done_of_late (ctx : Context) (d t : Nat) (hdone : ctx.doneAt = some d)
    (hlate : d ≤ t) : ctx.Done t = true := by
  simp [Context.Done, hdone, hlate]

theorem WithTimeout_Done (ctx : Context) (now d t : Nat) (hlate : now + d ≤ t) :
    (WithTimeout ctx now d).Done t = true := by
  obtain ⟨e, he, hle⟩ := WithTimeout_doneAt ctx now d
  exact Done_of_late _ e t he (Nat.le_trans hle hlate)

theorem save_cases (ctx : Context) (conn : Conexao) (q : Cotacao) (now : Time) (eng : Engine)
    (db : Database) (hconn : conn.dbConn ≠ none) :
    (∃ tbl, db.table "rates" = some tbl ∧
        saveExchangeRatesInfoInDatabase ctx conn q now eng db =
          .returned (none, Database.append "rates" ⟨tbl.nextId, boundCells q⟩ db,
            now + eng.prepareLatency + eng.execLatency) ∧
        eng.prepareOK = true ∧ eng.execOK = true ∧
        (WithTimeout ctx now (10 * Millisecond)).Done (now + eng.prepareLatency) = false ∧
        ((WithTimeout ctx now (10 * Millisecond)).Done
            (now + eng.prepareLatency + eng.execLatency) && eng.yieldsToInterrupt) = false) ∨
      (∃ e t, saveExchangeRatesInfoInDatabase ctx conn q now eng db =
          .returned (some e, db, t) ∧ now + eng.prepareLatency ≤ t) := by
  cases hc : conn.dbConn with
  | none => exact absurd hc hconn
  | some hdl =>
    have hprep : Prepare now eng db insertSTMT =
        PrepareContext Context.Background now eng db insertSTMT := rfl
    have hbg : (Context.Background.Done now = true) = False := by
      rw [Background_Done]; simp
    cases htbl : db.table "rates" with
    | none =>
      refine Or.inr ⟨Error.noSuchTable, now + eng.prepareLatency, ?_, Nat.le_refl _⟩
      have hp : Prepare now eng db insertSTMT =
          (some Error.noSuchTable, now + eng.prepareLatency) := by
        have : Database.table db insertSTMT.table = none := htbl
        simp only [hprep, PrepareContext, hbg, if_false, this]
      simp only [saveExchangeRatesInfoInDatabase, hc, hp]
    | some tbl =>
      have htbl2 : Database.table db insertSTMT.table = some tbl := htbl
      cases hcol : insertSTMT.columns.all
          (fun c => (tbl.columns.map (fun k => k.name)).contains c) with
      | false =>
        refine Or.inr ⟨Error.noSuchColumn, now + eng.prepareLatency, ?_, Nat.le_refl _⟩
        have hp : Prepare now eng db insertSTMT =
            (some Error.noSuchColumn, now + eng.prepareLatency) := by
          simp only [hprep, PrepareContext, hbg, if_false, htbl2, hcol]
          rfl
        simp only [saveExchangeRatesInfoInDatabase, hc, hp]
      | true =>
        cases hok : eng.prepareOK with
        | false =>
          refine Or.inr ⟨Error.engine, now + eng.prepareLatency, ?_, Nat.le_refl _⟩
          have hp : Prepare now eng db insertSTMT =
              (some Error.engine, now + eng.prepareLatency) := by
            simp only [hprep, PrepareContext, hbg, if_false, htbl2, hcol, hok]
            rfl
          simp only [saveExchangeRatesInfoInDatabase, hc, hp]
        | true =>
          have hp : Prepare now eng db insertSTMT = (none, now + eng.prepareLatency) := by
            simp only [hprep, PrepareContext, hbg, if_false, htbl2, hcol, hok]
            rfl
          cases hd0 : (WithTimeout ctx now (10 * Millisecond)).Done
              (now + eng.prepareLatency) with
          | true =>
            refine Or.inr ⟨(WithTimeout ctx now (10 * Millisecond)).Err,
              now + eng.prepareLatency, ?_, Nat.le_refl _⟩
            simp only [saveExchangeRatesInfoInDatabase, hc, hp, ExecContext, hd0, if_true]
          | false =>
            cases hd1 : ((WithTimeout ctx now (10 * Millisecond)).Done
                (now + eng.prepareLatency + eng.execLatency) && eng.yieldsToInterrupt) with
            | true =>
              refine Or.inr ⟨(WithTimeout ctx now (10 * Millisecond)).Err,
                now + eng.prepareLatency + eng.execLatency, ?_, Nat.le_add_right _ _⟩
              simp only [saveExchangeRatesInfoInDatabase, hc, hp, ExecContext, hd0, hd1,
                htbl2]
              rfl
            | false =>
              cases he : eng.execOK with
              | false =>
                refine Or.inr ⟨Error.engine, now + eng.prepareLatency + eng.execLatency, ?_,
                  Nat.le_add_right _ _⟩
                simp only [saveExchangeRatesInfoInDatabase, hc, hp, ExecContext, hd0, hd1,
                  htbl2, he]
                rfl
              | true =>
                refine Or.inl ⟨tbl, rfl, ?_, rfl, rfl, rfl, rfl⟩
                simp only [saveExchangeRatesInfoInDatabase, hc, hp, ExecContext, hd0, hd1,
                  htbl2, he]
                rfl

theorem save_success (ctx : Context) (conn : Conexao) (q : Cotacao) (now : Time) (eng : Engine)
    (db db1 : Database) (t2 : Time)
    (h : saveExchangeRatesInfoInDatabase ctx conn q now eng db = .returned (none, db1, t2)) :
    ∃ tbl, db.table "rates" = some tbl ∧
      db1 = Database.append "rates" ⟨tbl.nextId, boundCells q⟩ db := by
  have hconn : conn.dbConn ≠ none := by
    intro hc
    simp [saveExchangeRatesInfoInDatabase, hc] at h
  rcases save_cases ctx conn q now eng db hconn with ⟨tbl, htbl, hs, _⟩ | ⟨e, t, hs, _⟩
  · rw [hs] at h
    simp only [Result.returned.injEq, Prod.mk.injEq, true_and] at h
    exact ⟨tbl, htbl, h.1.symm⟩
  · rw [hs] at h
    simp at h

theorem save_failure (ctx : Context) (conn : Conexao) (q : Cotacao) (now : Time) (eng : Engine)
    (db db1 : Database) (e : Error) (t2 : Time)
    (h : saveExchangeRatesInfoInDatabase ctx conn q now eng db = .returned (some e, db1, t2)) :
    db1 = db := by
  have hconn : conn.dbConn ≠ none := by
    intro hc
    simp [saveExchangeRatesInfoInDatabase, hc] at h
  rcases save_cases ctx conn q now eng db hconn with ⟨tbl, htbl, hs, _⟩ | ⟨e, t, hs, _⟩
  · rw [hs] at h
    simp at h
  · rw [hs] at h
    simp only [Result.returned.injEq, Prod.mk.injEq, Option.some.injEq] at h
    exact h.2.1.symm

theorem save_fails (ctx : Context) (conn : Conexao) (q : Cotacao) (now : Time) (eng : Engine)
    (db : Database) (hconn : conn.dbConn ≠ none)
    (h : db.table "rates" = none ∨ eng.prepareOK = false ∨ eng.execOK = false ∨
      10 * Millisecond ≤ eng.prepareLatency ∨
      (10 * Millisecond ≤ eng.prepareLatency + eng.execLatency ∧
        eng.yieldsToInterrupt = true)) :
    ∃ e t, saveExchangeRatesInfoInDatabase ctx conn q now eng db = .returned (some e, db, t) := by
  rcases save_cases ctx conn q now eng db hconn with
    ⟨tbl, htbl, _, hp, he, hd0, hd1⟩ | ⟨e, t, hs, _⟩
  · exfalso
    rcases h with h | h | h | h | ⟨h, hy⟩
    · rw [htbl] at h; cases h
    · rw [hp] at h; cases h
    · rw [he] at h; cases h
    · rw [WithTimeout_Done ctx now (10 * Millisecond) (now + eng.prepareLatency)
        (by omega)] at hd0
      cases hd0
    · rw [WithTimeout_Done ctx now (10 * Millisecond)
        (now + eng.prepareLatency + eng.execLatency) (by omega), hy] at hd1
      cases hd1
  · exact ⟨e, t, hs⟩

/-- An insert that outlasts the 10 ms deadline and that SQLite does not abort
returns no error: the handler answers 200 and the row is stored. -/
theorem slow_insert_is_stored :
    liveConn.ServeHTTP ResponseWriter.fresh inbound 0
        (promptUpstream (.value (quoteBody sampleData)))
        ⟨Millisecond, true, 20 * Millisecond, true, false⟩ freshDatabase =
      ⟨none, ⟨[("Content-Type", "application/json")], some 200, "\x7b\"bid\":\"5.42\"\x7d"⟩,
        [⟨"rates", create.columns, [⟨1, boundCells ⟨sampleData⟩⟩]⟩], 51 * Millisecond,
        [.fetch, .persist]⟩ := by
  rfl

/-! ## The handler -/

theorem serve_fetch_error (conn : Conexao) (w : ResponseWriter) (r : Request) (now : Time)
    (up : Upstream) (eng : Engine) (db : Database) (e : Error) (t : Time)
    (hconn : conn.dbConn ≠ none)
    (hfetch : getExchangeRatesInfo r.ctx now up = (.error e, t)) :
    conn.ServeHTTP w r now up eng db =
      ⟨none, w.WriteHeader StatusInternalServerError, db, t, [.fetch]⟩ := by
  cases hc : conn.dbConn with
  | none => exact absurd hc hconn
  | some hdl => simp only [Conexao.ServeHTTP, hc, hfetch]

theorem serve_save_error (conn : Conexao) (w : ResponseWriter) (r : Request) (now : Time)
    (up : Upstream) (eng : Engine) (db db1 : Database) (q : Cotacao) (e : Error) (t1 t2 : Time)
    (hfetch : getExchangeRatesInfo r.ctx now up = (.ok q, t1))
    (hsave : saveExchangeRatesInfoInDatabase r.ctx conn q t1 eng db =
      .returned (some e, db1, t2)) :
    conn.ServeHTTP w r now up eng db =
      ⟨none, w.WriteHeader StatusInternalServerError, db1, t2, [.fetch, .persist]⟩ := by
  cases hc : conn.dbConn with
  | none => simp [saveExchangeRatesInfoInDatabase, hc] at hsave
  | some hdl => simp only [Conexao.ServeHTTP, hc, hfetch, hsave]

theorem serve_success (conn : Conexao) (w : ResponseWriter) (r : Request) (now : Time)
    (up : Upstream) (eng : Engine) (db db1 : Database) (q : Cotacao) (t1 t2 : Time)
    (hfetch : getExchangeRatesInfo r.ctx now up = (.ok q, t1))
    (hsave : saveExchangeRatesInfoInDatabase r.ctx conn q t1 eng db =
      .returned (none, db1, t2)) :
    conn.ServeHTTP w r now up eng db =
      ⟨none, ((w.HeaderSet "Content-Type" "application/json").WriteHeader StatusOK).Write
        (jsonMarshal ⟨q.Data.Bid⟩).1, db1, t2, [.fetch, .persist]⟩ := by
  cases hc : conn.dbConn with
  | none => simp [saveExchangeRatesInfoInDatabase, hc] at hsave
  | some hdl => simp only [Conexao.ServeHTTP, hc, hfetch, hsave, jsonMarshal]


/-! ## The response -/

theorem appendRune_htmlSafe (c : Char) (h : htmlSafe c = true) : appendRune c = [c] := by
  have h2 : c.toNat < 0x80 := by
    simp only [htmlSafe, Bool.and_eq_true, decide_eq_true_eq] at h
    exact h.1.2
  simp [appendRune, h2, h]

theorem flatMap_appendRune_htmlSafe (l : List Char) (h : ∀ c ∈ l, htmlSafe c = true) :
    l.flatMap appendRune = l := by
  induction l with
  | nil => rfl
  | cons c cs ih =>
    have hc := appendRune_htmlSafe c (h c (List.mem_cons_self c cs))
    have hcs := ih (fun x hx => h x (List.mem_cons_of_mem c hx))
    simp [List.flatMap_cons, hc, hcs]

theorem jsonMarshal_htmlSafe (bid : String) (h : ∀ c ∈ bid.data, htmlSafe c = true) :
    (jsonMarshal ⟨bid⟩).1 = "\x7b\"bid\":\"" ++ bid ++ "\"\x7d" := by
  apply String.ext
  simp only [jsonMarshal, appendString, String.data_append,
    flatMap_appendRune_htmlSafe bid.data h]
  simp

theorem fresh_success (body : String) :
    ((ResponseWriter.fresh.HeaderSet "Content-Type" "application/json").WriteHeader
      StatusOK).Write body = ⟨[("Content-Type", "application/json")], some 200, body⟩ := by
  simp [ResponseWriter.fresh, ResponseWriter.HeaderSet, ResponseWriter.WriteHeader,
    ResponseWriter.Write, StatusOK]

theorem fresh_failure :
    ResponseWriter.fresh.WriteHeader StatusInternalServerError = ⟨[], some 500, ""⟩ := rfl

theorem ratesRows_append (db : Database) (tbl : Table) (row : Row)
    (h : db.table "rates" = some tbl) :
    ratesRows (Database.append "rates" row db) = ratesRows db ++ [row] := by
  simp [ratesRows, table_append, h]

theorem boundCells_eq_iff (q1 q2 : Cotacao) :
    boundCells q1 = boundCells q2 ↔ ∀ f, f ≠ Field.Code → q1.Data.get f = q2.Data.get f := by
  constructor
  · intro h f hf
    simp only [boundCells, List.cons.injEq, Prod.mk.injEq, true_and, and_true] at h
    obtain ⟨h1, h2, h3, h4, h5, h6, h7, h8, h9, h10⟩ := h
    cases f <;> first | exact absurd rfl hf | assumption
  · intro h
    have h1 := h .Codein (by decide)
    have h2 := h .Name (by decide)
    have h3 := h .High (by decide)
    have h4 := h .Low (by decide)
    have h5 := h .VarBid (by decide)
    have h6 := h .PctChange (by decide)
    have h7 := h .Bid (by decide)
    have h8 := h .Ask (by decide)
    have h9 := h .Timestamp (by decide)
    have h10 := h .CreateDate (by decide)
    simp only [CotacaoData.get] at h1 h2 h3 h4 h5 h6 h7 h8 h9 h10
    simp only [boundCells, h1, h2, h3, h4, h5, h6, h7, h8, h9, h10]

theorem init_absent (run : CreateRun) :
    maybeCreateSQLLiteDatabase run FileState.absent =
      match run with
      | .completes => (some ⟨"sqlite3", "exchange.db"⟩, none,
          FileState.present [⟨"rates", create.columns, []⟩])
      | .failsAfterOpen => (none, some Error.engine, FileState.present [])
      | .cannotOpen => (none, some Error.cannotOpen, FileState.absent) := by
  cases run <;> rfl

theorem init_not_absent (run : CreateRun) (fs : FileState) (h : fs ≠ FileState.absent) :
    maybeCreateSQLLiteDatabase run fs = (some ⟨"sqlite3", "exchange.db"⟩, none, fs) := by
  cases fs with
  | absent => exact absurd rfl h
  | present db => rfl
  | uninspectable db => rfl

theorem lastOr_append (x : String) (a b : List String) :
    lastOr x (a ++ b) = lastOr (lastOr x a) b := by
  induction a generalizing x with
  | nil => rfl
  | cons s rest ih => exact ih s

theorem stringsFor_append (f : Field) (a b : List (String × JSONValue)) :
    stringsFor f (a ++ b) = stringsFor f a ++ stringsFor f b := by
  simp [stringsFor, List.filterMap_append]

theorem foldl_memberCotacaoData_get (f : Field) (members : List (String × JSONValue))
    (d : CotacaoData) (b : Bool) :
    (members.foldl memberCotacaoData (d, b)).1.get f =
      lastOr (d.get f) (stringsFor f members) := by
  induction members generalizing d b with
  | nil => rfl
  | cons kv rest ih =>
    rw [List.foldl_cons]
    cases hk : fieldByName kv.1 with
    | none =>
      have hm : memberCotacaoData (d, b) kv = (d, b) := by simp [memberCotacaoData, hk]
      have hs : stringsFor f (kv :: rest) = stringsFor f rest := by
        simp [stringsFor, List.filterMap_cons, hk]
      rw [hm, hs, ih]
    | some g =>
      have hm : memberCotacaoData (d, b) kv =
          ((storeString d g kv.2).1, b || (storeString d g kv.2).2) := by
        simp [memberCotacaoData, hk]
      rw [hm, ih]
      by_cases hg : g = f
      · subst hg
        cases hv : kv.2 <;>
          simp [stringsFor, List.filterMap_cons, hk, hv, storeString, lastOr, get_set]
      · have hs : stringsFor f (kv :: rest) = stringsFor f rest := by
          simp [stringsFor, List.filterMap_cons, hk, hg]
        rw [hs]
        cases hv : kv.2 <;> simp [storeString, get_set, hg]

theorem foldl_memberCotacao_get (f : Field) (members : List (String × JSONValue))
    (c : Cotacao) (b : Bool) :
    (members.foldl memberCotacao (c, b)).1.Data.get f =
      lastOr (c.Data.get f) (stringsFor f (dataMembers members)) := by
  induction members generalizing c b with
  | nil => rfl
  | cons kv rest ih =>
    rw [List.foldl_cons]
    by_cases hk : selectsData kv.1 = true
    · have hm : memberCotacao (c, b) kv =
          (⟨(valueCotacaoData c.Data kv.2).1⟩, b || (valueCotacaoData c.Data kv.2).2) := by
        simp [memberCotacao, hk]
      rw [hm, ih]
      cases hv : kv.2 with
      | object inner =>
        have hd : dataMembers (kv :: rest) = inner ++ dataMembers rest := by
          simp [dataMembers, List.flatMap_cons, hk, hv]
        rw [hd, stringsFor_append, lastOr_append]
        simp only [valueCotacaoData]
        rw [foldl_memberCotacaoData_get]
      | null => simp [dataMembers, List.flatMap_cons, hk, hv, valueCotacaoData]
      | bool x => simp [dataMembers, List.flatMap_cons, hk, hv, valueCotacaoData]
      | number x => simp [dataMembers, List.flatMap_cons, hk, hv, valueCotacaoData]
      | string x => simp [dataMembers, List.flatMap_cons, hk, hv, valueCotacaoData]
      | array x => simp [dataMembers, List.flatMap_cons, hk, hv, valueCotacaoData]
    · have hm : memberCotacao (c, b) kv = (c, b) := by simp [memberCotacao, hk]
      have hd : dataMembers (kv :: rest) = dataMembers rest := by
        simp [dataMembers, List.flatMap_cons, hk]
      rw [hm, hd, ih]

theorem zero_get (f : Field) : CotacaoData.zero.get f = "" := by
  cases f <;> rfl

theorem valueCotacao_get (f : Field) (v : JSONValue) :
    (valueCotacao Cotacao.zero v).1.Data.get f = bodyField f v := by
  cases v with
  | object members =>
    simp only [valueCotacao, bodyField]
    rw [foldl_memberCotacao_get]
    simp only [Cotacao.zero, zero_get]
  | null => simp [valueCotacao, bodyField, Cotacao.zero, zero_get]
  | bool x => simp [valueCotacao, bodyField, Cotacao.zero, zero_get]
  | number x => simp [valueCotacao, bodyField, Cotacao.zero, zero_get]
  | string x => simp [valueCotacao, bodyField, Cotacao.zero, zero_get]
  | array x => simp [valueCotacao, bodyField, Cotacao.zero, zero_get]

theorem storeString_flag (d : CotacaoData) (g : Field) (v : JSONValue) :
    (storeString d g v).2 = !v.fitsString := by
  cases v <;> rfl

theorem foldl_memberCotacaoData_flag (members : List (String × JSONValue))
    (d : CotacaoData) (b : Bool) :
    (members.foldl memberCotacaoData (d, b)).2 = (b || !membersFit members) := by
  induction members generalizing d b with
  | nil => simp [membersFit]
  | cons kv rest ih =>
    rw [List.foldl_cons]
    cases hk : fieldByName kv.1 with
    | none =>
      have hm : memberCotacaoData (d, b) kv = (d, b) := by simp [memberCotacaoData, hk]
      rw [hm, ih]
      simp [membersFit, hk]
    | some g =>
      have hm : memberCotacaoData (d, b) kv =
          ((storeString d g kv.2).1, b || (storeString d g kv.2).2) := by
        simp [memberCotacaoData, hk]
      rw [hm, ih, storeString_flag]
      simp only [membersFit, List.all_cons, hk]
      cases b <;> cases kv.2.fitsString <;> simp

theorem valueCotacaoData_flag (d : CotacaoData) (v : JSONValue) :
    (valueCotacaoData d v).2 = !dataFits v := by
  cases v with
  | object inner => simp [valueCotacaoData, dataFits, foldl_memberCotacaoData_flag]
  | null => rfl
  | bool x => rfl
  | number x => rfl
  | string x => rfl
  | array x => rfl

theorem foldl_memberCotacao_flag (members : List (String × JSONValue))
    (c : Cotacao) (b : Bool) :
    (members.foldl memberCotacao (c, b)).2 =
      (b || !members.all (fun kv => if selectsData kv.1 then dataFits kv.2 else true)) := by
  induction members generalizing c b with
  | nil => simp
  | cons kv rest ih =>
    rw [List.foldl_cons]
    by_cases hk : selectsData kv.1 = true
    · have hm : memberCotacao (c, b) kv =
          (⟨(valueCotacaoData c.Data kv.2).1⟩, b || (valueCotacaoData c.Data kv.2).2) := by
        simp [memberCotacao, hk]
      rw [hm, ih, valueCotacaoData_flag]
      simp only [List.all_cons, hk, if_true]
      cases b <;> cases dataFits kv.2 <;> simp
    · have hm : memberCotacao (c, b) kv = (c, b) := by simp [memberCotacao, hk]
      rw [hm, ih]
      simp [List.all_cons, hk]

theorem valueCotacao_flag (c : Cotacao) (v : JSONValue) :
    (valueCotacao c v).2 = !bodyFits v := by
  cases v with
  | object members => simp [valueCotacao, bodyFits, foldl_memberCotacao_flag]
  | null => rfl
  | bool x => rfl
  | number x => rfl
  | string x => rfl
  | array x => rfl

theorem bodyFits_quoteBody (d : CotacaoData) : bodyFits (quoteBody d) = true := by
  have h := valueCotacao_flag Cotacao.zero (quoteBody d)
  have h2 := jsonUnmarshal_quoteBody d
  simp only [jsonUnmarshal] at h2
  split at h2
  · simp at h2
  · rename_i hflag
    simp only [Bool.not_eq_true] at hflag
    rw [hflag] at h
    simpa using h.symm

theorem bodyField_quoteBody (d : CotacaoData) (f : Field) :
    bodyField f (quoteBody d) = d.get f := by
  rw [← valueCotacao_get]
  have h2 := jsonUnmarshal_quoteBody d
  simp only [jsonUnmarshal] at h2
  split at h2
  · simp at h2
  · simp only [Prod.mk.injEq, and_true] at h2
    rw [h2]

theorem jsonUnmarshal_value (v : JSONValue) :
    jsonUnmarshal (.value v) Cotacao.zero =
      ((valueCotacao Cotacao.zero v).1,
        if bodyFits v then none else some Error.jsonType) := by
  have h := valueCotacao_flag Cotacao.zero v
  simp only [jsonUnmarshal]
  cases hb : bodyFits v <;> simp [h, hb]

theorem count_pos_of_table (db : Database) (name : String)
    (h : (db.table name).isSome = true) : 1 ≤ db.count name := by
  simp only [Database.table, List.find?_isSome] at h
  exact List.countP_pos_iff.mpr h

/-! ## Claims about the handler and the persister -/


/-- C1: on a successful fetch and a successful insert the handler answers
status 200 with the single header `Content-Type: application/json` and, as
body, the JSON encoding of the object whose only member `bid` is the bid the
fetch returned; that bid is the string the upstream body gives for `bid`
(the bid of the quote when the body has the expected shape), and a bid made
of plain characters (digits, a point) stands in the body verbatim between
quotes. -/
theorem success_responds_200_with_bid (conn : Conexao) (r : Request) (now : Time)
    (up : Upstream) (eng : Engine) (db db1 : Database) (q : Cotacao) (t1 t2 : Time)
    (hfetch : getExchangeRatesInfo r.ctx now up = (.ok q, t1))
    (hsave : saveExchangeRatesInfoInDatabase r.ctx conn q t1 eng db =
      .returned (none, db1, t2)) :
    conn.ServeHTTP ResponseWriter.fresh r now up eng db =
        ⟨none, ⟨[("Content-Type", "application/json")], some 200,
          (jsonMarshal ⟨q.Data.Bid⟩).1⟩, db1, t2, [.fetch, .persist]⟩ ∧
      (jsonMarshal ⟨q.Data.Bid⟩).2 = none ∧
      (∀ v, up.payload = .value v → q.Data.Bid = bodyField Field.Bid v) ∧
      (∀ d, up.payload = .value (quoteBody d) → q.Data.Bid = d.Bid) ∧
      ((∀ c ∈ q.Data.Bid.data, htmlSafe c = true) →
        (jsonMarshal ⟨q.Data.Bid⟩).1 = "\x7b\"bid\":\"" ++ q.Data.Bid ++ "\"\x7d") := by
  refine ⟨?_, rfl, ?_, ?_, jsonMarshal_htmlSafe q.Data.Bid⟩
  · rw [serve_success conn _ r now up eng db db1 q t1 t2 hfetch hsave, fresh_success]
  · intro v hv
    have hq := (fetch_ok_decoded r.ctx now up q t1 hfetch).1
    rw [hv, jsonUnmarshal_value] at hq
    simp only [Prod.mk.injEq] at hq
    rw [← hq.1]
    exact valueCotacao_get Field.Bid v
  · intro d hd
    have hq := (fetch_ok_decoded r.ctx now up q t1 hfetch).1
    rw [hd, jsonUnmarshal_quoteBody] at hq
    simp only [Prod.mk.injEq, and_true] at hq
    rw [← hq]

/-- The witness of C1: the upstream answers with the bid 5.42 and the handler
answers 200 with the body that holds exactly that bid. -/
theorem success_responds_200_with_bid_witness :

    liveConn.ServeHTTP ResponseWriter.fresh inbound 0
        (promptUpstream (.value (quoteBody sampleData))) promptEngine freshDatabase =
      ⟨none, ⟨[("Content-Type", "application/json")], some 200, "\x7b\"bid\":\"5.42\"\x7d"⟩,
        [⟨"rates", create.columns, [⟨1, boundCells ⟨sampleData⟩⟩]⟩], 32 * Millisecond,
        [.fetch, .persist]⟩ :=
  (success_responds_200_with_bid liveConn inbound 0
    (promptUpstream (.value (quoteBody sampleData))) promptEngine freshDatabase
    [⟨"rates", create.columns, [⟨1, boundCells ⟨sampleData⟩⟩]⟩] ⟨sampleData⟩
    (30 * Millisecond) (32 * Millisecond) (by rfl) (by rfl)).1

/-- C2: a successful insert appends exactly one row to the rates table, keeps
every earlier row (and every other table) as it was, and the new row holds,
under the columns codein, name, high, low, var_bid, pct_change, bid, ask,
timestamp, create_date and in that order, the quote's Codein, Name, High,
Low, VarBid, PctChange, Bid, Ask, Timestamp, CreateDate as text. -/
theorem insert_appends_exactly_one_row (ctx : Context) (conn : Conexao) (q : Cotacao)
    (now : Time) (eng : Engine) (db db1 : Database) (t2 : Time)
    (h : saveExchangeRatesInfoInDatabase ctx conn q now eng db = .returned (none, db1, t2)) :
    ∃ tbl row, db.table "rates" = some tbl ∧
      db1.table "rates" = some { tbl with rows := tbl.rows ++ [row] } ∧
      row.cells =
        [("codein", q.Data.Codein), ("name", q.Data.Name), ("high", q.Data.High),
         ("low", q.Data.Low), ("var_bid", q.Data.VarBid), ("pct_change", q.Data.PctChange),
         ("bid", q.Data.Bid), ("ask", q.Data.Ask), ("timestamp", q.Data.Timestamp),
         ("create_date", q.Data.CreateDate)] ∧
      (ratesRows db1).length = (ratesRows db).length + 1 ∧
      (∀ i, i < (ratesRows db).length → (ratesRows db1)[i]? = (ratesRows db)[i]?) ∧
      (∀ other, other ≠ "rates" → db1.table other = db.table other) := by
  obtain ⟨tbl, htbl, hdb⟩ := save_success ctx conn q now eng db db1 t2 h
  refine ⟨tbl, ⟨tbl.nextId, boundCells q⟩, htbl, ?_, rfl, ?_, ?_, ?_⟩
  · rw [hdb, table_append, htbl]; rfl
  · rw [hdb, ratesRows_append db tbl _ htbl]; simp
  · intro i hi
    rw [hdb, ratesRows_append db tbl _ htbl, List.getElem?_append_left hi]
  · intro other hne
    rw [hdb]; exact table_append_other "rates" other _ db hne

/-- The witness of C2: the sample quote inserted into the freshly created
table. -/
theorem insert_appends_exactly_one_row_witness :
    saveExchangeRatesInfoInDatabase Context.Background liveConn ⟨sampleData⟩ 0 promptEngine
        freshDatabase =
      .returned (none, [⟨"rates", create.columns, [⟨1, boundCells ⟨sampleData⟩⟩]⟩],
        2 * Millisecond) ∧
    ∃ tbl row, freshDatabase.table "rates" = some tbl ∧
      Database.table [⟨"rates", create.columns, [⟨1, boundCells ⟨sampleData⟩⟩]⟩] "rates" =
        some { tbl with rows := tbl.rows ++ [row] } ∧
      row.cells =
        [("codein", "BRL"), ("name", "Dólar Americano/Real Brasileiro"), ("high", "5.45"),
         ("low", "5.40"), ("var_bid", "0.01"), ("pct_change", "0.18"),
         ("bid", "5.42"), ("ask", "5.43"), ("timestamp", "1700000000"),
         ("create_date", "2023-11-14 19:13:20")] ∧
      (ratesRows [⟨"rates", create.columns, [⟨1, boundCells ⟨sampleData⟩⟩]⟩]).length =
        (ratesRows freshDatabase).length + 1 ∧
      (∀ i, i < (ratesRows freshDatabase).length →
        (ratesRows [⟨"rates", create.columns, [⟨1, boundCells ⟨sampleData⟩⟩]⟩])[i]? =
          (ratesRows freshDatabase)[i]?) ∧
      (∀ other, other ≠ "rates" →
        Database.table [⟨"rates", create.columns, [⟨1, boundCells ⟨sampleData⟩⟩]⟩] other =
          freshDatabase.table other) :=
  ⟨by rfl, insert_appends_exactly_one_row Context.Background liveConn ⟨sampleData⟩ 0
    promptEngine freshDatabase [⟨"rates", create.columns, [⟨1, boundCells ⟨sampleData⟩⟩]⟩]
    (2 * Millisecond) (by rfl)⟩

/-- C3: when the fetch fails (the round trip fails, the body cannot be read,
the exchange needs 200 ms or more, the body is not JSON, it does not decode,
or the fetcher returns any error at all), the handler answers status 500 with
no header of its own and an empty body, invokes the fetcher only, and leaves
the database as it was. -/
theorem fetch_failure_responds_500 (conn : Conexao) (r : Request) (now : Time)
    (up : Upstream) (eng : Engine) (db : Database) (hconn : conn.dbConn ≠ none)
    (hfail : up.roundTripOK = false ∨ up.readOK = false ∨
      200 * Millisecond ≤ up.headerLatency + up.bodyLatency ∨
      up.payload = Payload.malformed ∨
      (jsonUnmarshal up.payload Cotacao.zero).2 ≠ none ∨
      ∃ e t, getExchangeRatesInfo r.ctx now up = (.error e, t)) :
    ∃ t, conn.ServeHTTP ResponseWriter.fresh r now up eng db =
        ⟨none, ⟨[], some 500, ""⟩, db, t, [.fetch]⟩ ∧
      Stage.persist ∉ (conn.ServeHTTP ResponseWriter.fresh r now up eng db).calls ∧
      ratesRows (conn.ServeHTTP ResponseWriter.fresh r now up eng db).db = ratesRows db := by
  have hex : ∃ e t, getExchangeRatesInfo r.ctx now up = (.error e, t) := by
    rcases hfail with h | h | h | h | h | h
    · exact fetch_fails r.ctx now up (Or.inl h)
    · exact fetch_fails r.ctx now up (Or.inr (Or.inl h))
    · exact fetch_fails r.ctx now up (Or.inr (Or.inr (Or.inl h)))
    · refine fetch_fails r.ctx now up (Or.inr (Or.inr (Or.inr ?_)))
      rw [h]
      simp [jsonUnmarshal]
    · exact fetch_fails r.ctx now up (Or.inr (Or.inr (Or.inr h)))
    · exact h
  obtain ⟨e, t, hfetch⟩ := hex
  have hs := serve_fetch_error conn ResponseWriter.fresh r now up eng db e t hconn hfetch
  rw [fresh_failure] at hs
  refine ⟨t, hs, ?_, ?_⟩
  · rw [hs]; simp
  · rw [hs]

/-- The witness of C3: the upstream needs 250 ms; the handler gives up at the
200 ms deadline and answers 500, the table still empty. -/
theorem fetch_failure_responds_500_witness :
    liveConn.dbConn ≠ none ∧
    200 * Millisecond ≤ 150 * Millisecond + 100 * Millisecond ∧
    ∃ t, liveConn.ServeHTTP ResponseWriter.fresh inbound 0
          ⟨150 * Millisecond, true, 100 * Millisecond, true, .value (quoteBody sampleData)⟩
          promptEngine freshDatabase =
        ⟨none, ⟨[], some 500, ""⟩, freshDatabase, t, [.fetch]⟩ ∧
      Stage.persist ∉ (liveConn.ServeHTTP ResponseWriter.fresh inbound 0
          ⟨150 * Millisecond, true, 100 * Millisecond, true, .value (quoteBody sampleData)⟩
          promptEngine freshDatabase).calls ∧
      ratesRows (liveConn.ServeHTTP ResponseWriter.fresh inbound 0
          ⟨150 * Millisecond, true, 100 * Millisecond, true, .value (quoteBody sampleData)⟩
          promptEngine freshDatabase).db = ratesRows freshDatabase :=
  ⟨by decide, by decide, fetch_failure_responds_500 liveConn inbound 0
    ⟨150 * Millisecond, true, 100 * Millisecond, true, .value (quoteBody sampleData)⟩
    promptEngine freshDatabase (by decide)
    (Or.inr (Or.inr (Or.inl
      (show 200 * Millisecond ≤ 150 * Millisecond + 100 * Millisecond by decide))))⟩

/-- C4: when the fetch succeeds and the persister fails, the handler answers
status 500 with no header of its own and an empty body, so no bid is
emitted, and the database is as it was: no row, whole or in part, is added.
The persister fails when the rates table is missing, when the prepare fails,
when the execute fails, when the 10 ms deadline has passed before the
execute starts, when it passes during the execute and SQLite aborts the
statement, and in general whenever it returns an error. -/
theorem persist_failure_responds_500 (conn : Conexao) (r : Request) (now : Time)
    (up : Upstream) (eng : Engine) (db : Database) (q : Cotacao) (t1 : Time)
    (hconn : conn.dbConn ≠ none)
    (hfetch : getExchangeRatesInfo r.ctx now up = (.ok q, t1))
    (hfail : db.table "rates" = none ∨ eng.prepareOK = false ∨ eng.execOK = false ∨
      10 * Millisecond ≤ eng.prepareLatency ∨
      (10 * Millisecond ≤ eng.prepareLatency + eng.execLatency ∧
        eng.yieldsToInterrupt = true) ∨
      ∃ e db1 t2, saveExchangeRatesInfoInDatabase r.ctx conn q t1 eng db =
        .returned (some e, db1, t2)) :
    ∃ t2, conn.ServeHTTP ResponseWriter.fresh r now up eng db =
        ⟨none, ⟨[], some 500, ""⟩, db, t2, [.fetch, .persist]⟩ ∧
      ratesRows (conn.ServeHTTP ResponseWriter.fresh r now up eng db).db = ratesRows db := by
  have hex : ∃ e t2, saveExchangeRatesInfoInDatabase r.ctx conn q t1 eng db =
      .returned (some e, db, t2) := by
    rcases hfail with h | h | h | h | h | ⟨e, db1, t2, h⟩
    · exact save_fails r.ctx conn q t1 eng db hconn (Or.inl h)
    · exact save_fails r.ctx conn q t1 eng db hconn (Or.inr (Or.inl h))
    · exact save_fails r.ctx conn q t1 eng db hconn (Or.inr (Or.inr (Or.inl h)))
    · exact save_fails r.ctx conn q t1 eng db hconn (Or.inr (Or.inr (Or.inr (Or.inl h))))
    · exact save_fails r.ctx conn q t1 eng db hconn (Or.inr (Or.inr (Or.inr (Or.inr h))))
    · have hdb := save_failure r.ctx conn q t1 eng db db1 e t2 h
      rw [hdb] at h
      exact ⟨e, t2, h⟩
  obtain ⟨e, t2, hsave⟩ := hex
  have hs := serve_save_error conn ResponseWriter.fresh r now up eng db db q e t1 t2 hfetch hsave
  rw [fresh_failure] at hs
  refine ⟨t2, hs, ?_⟩
  rw [hs]

/-- The witness of C4: the quote arrives and the insert fails in the engine
(a full disk, a constraint); the handler answers 500 and the table is still
empty. -/
theorem persist_failure_responds_500_witness :
    liveConn.dbConn ≠ none ∧
    getExchangeRatesInfo inbound.ctx 0 (promptUpstream (.value (quoteBody sampleData))) =
      (.ok ⟨sampleData⟩, 30 * Millisecond) ∧
    failingEngine.execOK = false ∧
    ∃ t2, liveConn.ServeHTTP ResponseWriter.fresh inbound 0
          (promptUpstream (.value (quoteBody sampleData))) failingEngine freshDatabase =
        ⟨none, ⟨[], some 500, ""⟩, freshDatabase, t2, [.fetch, .persist]⟩ ∧
      ratesRows (liveConn.ServeHTTP ResponseWriter.fresh inbound 0
          (promptUpstream (.value (quoteBody sampleData))) failingEngine freshDatabase).db =
        ratesRows freshDatabase :=
  ⟨by decide, by rfl, rfl, persist_failure_responds_500 liveConn inbound 0
    (promptUpstream (.value (quoteBody sampleData))) failingEngine freshDatabase ⟨sampleData⟩
    (30 * Millisecond) (by decide) (by rfl) (Or.inr (Or.inr (Or.inl rfl)))⟩

/-- C5, as stated, fails: the fetch and the decode succeed, the insert fails,
and no row is persisted. -/
theorem fetched_and_decoded_yet_no_row :
    getExchangeRatesInfo inbound.ctx 0 (promptUpstream (.value (quoteBody sampleData))) =
        (.ok ⟨sampleData⟩, 30 * Millisecond) ∧
      (liveConn.ServeHTTP ResponseWriter.fresh inbound 0
        (promptUpstream (.value (quoteBody sampleData))) failingEngine freshDatabase).db =
        freshDatabase ∧
      ratesRows freshDatabase = [] := by
  refine ⟨by rfl, by rfl, by rfl⟩

/-- C5, amended: the handler persists a row if and only if the fetch (decode
included) succeeds and the insert itself succeeds; it then persists exactly
one row, and in every other case it leaves the database as it was. -/
theorem row_persisted_iff (conn : Conexao) (r : Request) (now : Time) (up : Upstream)
    (eng : Engine) (db : Database) :
    (ratesRows (conn.ServeHTTP ResponseWriter.fresh r now up eng db).db ≠ ratesRows db ↔
        ∃ q t1 db1 t2, getExchangeRatesInfo r.ctx now up = (.ok q, t1) ∧
          saveExchangeRatesInfoInDatabase r.ctx conn q t1 eng db =
            .returned (none, db1, t2)) ∧
      ((∃ q t1 db1 t2, getExchangeRatesInfo r.ctx now up = (.ok q, t1) ∧
          saveExchangeRatesInfoInDatabase r.ctx conn q t1 eng db =
            .returned (none, db1, t2)) →
        ∃ row, ratesRows (conn.ServeHTTP ResponseWriter.fresh r now up eng db).db =
          ratesRows db ++ [row]) ∧
      ((¬ ∃ q t1 db1 t2, getExchangeRatesInfo r.ctx now up = (.ok q, t1) ∧
          saveExchangeRatesInfoInDatabase r.ctx conn q t1 eng db =
            .returned (none, db1, t2)) →
        (conn.ServeHTTP ResponseWriter.fresh r now up eng db).db = db) := by
  have hyes : (∃ q t1 db1 t2, getExchangeRatesInfo r.ctx now up = (.ok q, t1) ∧
      saveExchangeRatesInfoInDatabase r.ctx conn q t1 eng db = .returned (none, db1, t2)) →
      ∃ row, ratesRows (conn.ServeHTTP ResponseWriter.fresh r now up eng db).db =
        ratesRows db ++ [row] := by
    rintro ⟨q, t1, db1, t2, hfetch, hsave⟩
    obtain ⟨tbl, htbl, hdb⟩ := save_success r.ctx conn q t1 eng db db1 t2 hsave
    refine ⟨⟨tbl.nextId, boundCells q⟩, ?_⟩
    rw [serve_success conn _ r now up eng db db1 q t1 t2 hfetch hsave]
    simp only []
    rw [hdb, ratesRows_append db tbl _ htbl]
  have hno : (¬ ∃ q t1 db1 t2, getExchangeRatesInfo r.ctx now up = (.ok q, t1) ∧
      saveExchangeRatesInfoInDatabase r.ctx conn q t1 eng db = .returned (none, db1, t2)) →
      (conn.ServeHTTP ResponseWriter.fresh r now up eng db).db = db := by
    intro hn
    cases hc : conn.dbConn with
    | none => simp only [Conexao.ServeHTTP, hc]
    | some hdl =>
      have hconn : conn.dbConn ≠ none := by rw [hc]; simp
      cases hf : getExchangeRatesInfo r.ctx now up with
      | mk res t1 =>
        cases res with
        | error e =>
          rw [serve_fetch_error conn _ r now up eng db e t1 hconn hf]
        | ok q =>
          rcases save_cases r.ctx conn q t1 eng db hconn with
            ⟨tbl, _, hs, _⟩ | ⟨e, t, hs, _⟩
          · exact absurd ⟨q, t1, _, _, hf, hs⟩ hn
          · rw [serve_save_error conn _ r now up eng db db q e t1 t hf hs]
  refine ⟨⟨?_, ?_⟩, hyes, hno⟩
  · intro hne
    by_contra hn
    exact hne (by rw [hno hn])
  · intro hs
    obtain ⟨row, hrow⟩ := hyes hs
    rw [hrow]
    intro heq
    have := congrArg List.length heq
    simp at this

/-! ## Claims about the stored row and the deadlines -/

/-- C10, as stated, fails: two quotes that differ in the currency pair code
only produce the same row, and the same database. -/
theorem code_is_not_stored :
    (⟨sampleData⟩ : Cotacao) ≠ ⟨euroData⟩ ∧
      saveExchangeRatesInfoInDatabase Context.Background liveConn ⟨sampleData⟩ 0 promptEngine
          freshDatabase =
        .returned (none, [⟨"rates", create.columns, [⟨1, boundCells ⟨sampleData⟩⟩]⟩],
          2 * Millisecond) ∧
      saveExchangeRatesInfoInDatabase Context.Background liveConn ⟨euroData⟩ 0 promptEngine
          freshDatabase =
        .returned (none, [⟨"rates", create.columns, [⟨1, boundCells ⟨sampleData⟩⟩]⟩],
          2 * Millisecond) := by
  refine ⟨by decide, by rfl, by rfl⟩

/-- C10, amended: the inserted row holds every field of the quote except the
currency pair code; two quotes inserted into the same database produce rows
with the same id whose other columns coincide exactly when the quotes agree
on every field other than the code. -/
theorem row_holds_quote_but_code (ctx : Context) (conn : Conexao) (q1 q2 : Cotacao)
    (now : Time) (eng : Engine) (db db1 db2 : Database) (t1 t2 : Time)
    (h1 : saveExchangeRatesInfoInDatabase ctx conn q1 now eng db = .returned (none, db1, t1))
    (h2 : saveExchangeRatesInfoInDatabase ctx conn q2 now eng db = .returned (none, db2, t2)) :
    ∃ tbl r1 r2, db.table "rates" = some tbl ∧
      db1.table "rates" = some { tbl with rows := tbl.rows ++ [r1] } ∧
      db2.table "rates" = some { tbl with rows := tbl.rows ++ [r2] } ∧
      r1.id = r2.id ∧
      (r1.cells = r2.cells ↔ ∀ f, f ≠ Field.Code → q1.Data.get f = q2.Data.get f) := by
  obtain ⟨tbl, htbl, hdb1⟩ := save_success ctx conn q1 now eng db db1 t1 h1
  obtain ⟨tbl2, htbl2, hdb2⟩ := save_success ctx conn q2 now eng db db2 t2 h2
  rw [htbl] at htbl2
  cases htbl2
  refine ⟨tbl, ⟨tbl.nextId, boundCells q1⟩, ⟨tbl.nextId, boundCells q2⟩, htbl, ?_, ?_, rfl,
    boundCells_eq_iff q1 q2⟩
  · rw [hdb1, table_append, htbl]; rfl
  · rw [hdb2, table_append, htbl]; rfl

/-- The witness of C10, amended: the sample quote and the same quote under
the code EUR. -/
theorem row_holds_quote_but_code_witness :
    ∃ tbl r1 r2, freshDatabase.table "rates" = some tbl ∧
      Database.table [⟨"rates", create.columns, [⟨1, boundCells ⟨sampleData⟩⟩]⟩] "rates" =
        some { tbl with rows := tbl.rows ++ [r1] } ∧
      Database.table [⟨"rates", create.columns, [⟨1, boundCells ⟨sampleData⟩⟩]⟩] "rates" =
        some { tbl with rows := tbl.rows ++ [r2] } ∧
      r1.id = r2.id ∧
      (r1.cells = r2.cells ↔
        ∀ f, f ≠ Field.Code → (⟨sampleData⟩ : Cotacao).Data.get f =
          (⟨euroData⟩ : Cotacao).Data.get f) :=
  row_holds_quote_but_code Context.Background liveConn ⟨sampleData⟩ ⟨euroData⟩ 0 promptEngine
    freshDatabase [⟨"rates", create.columns, [⟨1, boundCells ⟨sampleData⟩⟩]⟩]
    [⟨"rates", create.columns, [⟨1, boundCells ⟨sampleData⟩⟩]⟩] (2 * Millisecond)
    (2 * Millisecond) (by rfl) (by rfl)

/-- C9 at its failing input: the caller's context is cancelled at instant 0
and its deadline is at 5 ms, yet the prepare of the persister, which runs
under `context.Background()`, goes on for its full second and succeeds; the
persister returns only at 1000 ms, when the execute sees the cancellation.
The same prepare under the persister's 10 ms context is abandoned at
instant 0. -/
theorem prepare_outlives_deadline :
    (WithTimeout cancelledCaller 0 (10 * Millisecond)).deadline = some (5 * Millisecond) ∧
      Prepare 0 blockedEngine freshDatabase insertSTMT = (none, 1000 * Millisecond) ∧
      PrepareContext (WithTimeout cancelledCaller 0 (10 * Millisecond)) 0 blockedEngine
          freshDatabase insertSTMT = (some Error.canceled, 0) ∧
      saveExchangeRatesInfoInDatabase cancelledCaller liveConn ⟨sampleData⟩ 0 blockedEngine
          freshDatabase =
        .returned (some Error.canceled, freshDatabase, 1000 * Millisecond) := by
  refine ⟨by rfl, by rfl, by rfl, by rfl⟩

/-! ## Claims about the fetcher -/

/-- C6, as stated, fails: the body with which the quote service refuses a
request is JSON of another shape (no `USDBRL` member), yet it decodes without
error, and the quote returned is empty in every field, the code included,
although the body has a member `code`. -/
theorem refusal_body_is_accepted :
    getExchangeRatesInfo Context.Background 0 (promptUpstream (.value refusalBody)) =
        (.ok Cotacao.zero, 30 * Millisecond) ∧
      (jsonUnmarshal (.value refusalBody) Cotacao.zero).2 = none ∧
      Cotacao.zero.Data = ⟨"", "", "", "", "", "", "", "", "", "", ""⟩ := by
  exact ⟨by rfl, by rfl, by rfl⟩

/-- C6, amended: when the upstream body arrives in time, the fetcher fails
with a decode error exactly when the body is not JSON (a syntax error) or
does not fit (a type error): it is neither an object nor `null`, or gives
under `USDBRL` something that is neither an object nor `null`, or gives for
one of the eleven fields something that is neither a string nor `null`.
Missing and unknown members are no error: the empty object is accepted.
Whenever the fetcher succeeds, each of the eleven fields of the quote holds
the last string the body gives for it inside `USDBRL`, and is empty when the
body gives none; for a body of the expected shape that is the value of the
corresponding field of the body. -/
theorem decode_outcome (ctx : Context) (now : Time) (up : Upstream)
    (hrt : up.roundTripOK = true) (hrd : up.readOK = true)
    (hlive : interruptedAt (WithTimeout ctx now (200 * Millisecond)) now
      (up.headerLatency + up.bodyLatency) = none) :
    (up.payload = Payload.malformed →
        getExchangeRatesInfo ctx now up =
          (.error Error.jsonMalformed, now + up.headerLatency + up.bodyLatency)) ∧
      (∀ v, up.payload = Payload.value v → bodyFits v = false →
        getExchangeRatesInfo ctx now up =
          (.error Error.jsonType, now + up.headerLatency + up.bodyLatency)) ∧
      (∀ v, up.payload = Payload.value v → bodyFits v = true →
        ∃ q, getExchangeRatesInfo ctx now up =
            (.ok q, now + up.headerLatency + up.bodyLatency) ∧
          ∀ f, q.Data.get f = bodyField f v) ∧
      (∀ d, bodyFits (quoteBody d) = true ∧ ∀ f, bodyField f (quoteBody d) = d.get f) ∧
      (bodyFits (.object []) = true ∧ ∀ f, bodyField f (.object []) = "") := by
  have hfetch := fetch_completes ctx now up hrt hrd hlive
  refine ⟨?_, ?_, ?_, ?_, ?_⟩
  · intro hp
    rw [hfetch, hp]
    rfl
  · intro v hp hfit
    rw [hfetch, hp, jsonUnmarshal_value, hfit]
    rfl
  · intro v hp hfit
    refine ⟨(valueCotacao Cotacao.zero v).1, ?_, fun f => valueCotacao_get f v⟩
    rw [hfetch, hp, jsonUnmarshal_value, hfit]
    rfl
  · exact fun d => ⟨bodyFits_quoteBody d, bodyField_quoteBody d⟩
  · exact ⟨by rfl, fun f => by rfl⟩

/-- The witness of C6, amended: the sample quote in a body of the expected
shape, delivered in 30 ms. -/
theorem decode_outcome_witness :
    (promptUpstream (.value (quoteBody sampleData))).roundTripOK = true ∧
      (promptUpstream (.value (quoteBody sampleData))).readOK = true ∧
      interruptedAt (WithTimeout Context.Background 0 (200 * Millisecond)) 0
        (20 * Millisecond + 10 * Millisecond) = none ∧
      ∃ q, getExchangeRatesInfo Context.Background 0
            (promptUpstream (.value (quoteBody sampleData))) =
          (.ok q, 0 + 20 * Millisecond + 10 * Millisecond) ∧
        ∀ f, q.Data.get f = bodyField f (quoteBody sampleData) :=
  ⟨rfl, rfl, by rfl,
    (decode_outcome Context.Background 0 (promptUpstream (.value (quoteBody sampleData)))
      rfl rfl (by rfl)).2.2.1 (quoteBody sampleData) rfl (bodyFits_quoteBody sampleData)⟩

/-! ## Claims about the storage initializer -/

/-- C7, as stated, fails: a call on a database file that has no rates table
(such as the empty file that a failed create leaves behind) succeeds and
leaves the file as it is, and so does the second call; after it the store
holds no rates table at all, not a single one. -/
theorem second_call_finds_no_table :
    maybeCreateSQLLiteDatabase CreateRun.failsAfterOpen FileState.absent =
        (none, some Error.engine, FileState.present []) ∧
      maybeCreateSQLLiteDatabase CreateRun.completes (FileState.present []) =
        (some ⟨"sqlite3", "exchange.db"⟩, none, FileState.present []) ∧
      (maybeCreateSQLLiteDatabase CreateRun.completes
          (maybeCreateSQLLiteDatabase CreateRun.completes (FileState.present [])).2.2).2.2 =
        FileState.present [] ∧
      Database.count [] "rates" = 0 ∧
      Database.table [] "rates" = none := by
  exact ⟨by rfl, by rfl, by rfl, by rfl, by rfl⟩

/-- C7, amended: after one successful call of the initializer, a second call
on the file as the first one left it returns the handle without error,
whatever the engine would do, and leaves the file exactly as it was: the
same tables, the same schema, the same rows. When the first call found no
file, the store it leaves holds one rates table, with the columns of the
create statement and no rows, and the second call keeps it so; when the file
was there, the store is the one that was there, so a file without the rates
table still has none. The schema is never duplicated: a store that had at
most one rates table before the first call has at most one afterwards, and
exactly one when the table is there. -/
theorem init_twice_same_store (run1 run2 : CreateRun) (fs fs1 : FileState) (h1 : Option DB)
    (hfirst : maybeCreateSQLLiteDatabase run1 fs = (h1, none, fs1)) :
    maybeCreateSQLLiteDatabase run2 fs1 = (some ⟨"sqlite3", "exchange.db"⟩, none, fs1) ∧
      fs1 ≠ FileState.absent ∧
      (fs = FileState.absent →
        fs1 = FileState.present [⟨"rates", create.columns, []⟩] ∧
        (maybeCreateSQLLiteDatabase run2 fs1).2.2.database.map (fun db => db.count "rates") =
          some 1) ∧
      (fs ≠ FileState.absent → fs1 = fs) ∧
      (∀ db0, fs = FileState.present db0 → db0.table "rates" = none →
        (maybeCreateSQLLiteDatabase run2 fs1).2.2.database.bind
          (fun db => db.table "rates") = none) ∧
      (∀ db1, fs1.database = some db1 →
        (∀ db0, fs.database = some db0 → db0.count "rates" ≤ 1) →
        db1.count "rates" ≤ 1 ∧
          ((db1.table "rates").isSome = true → db1.count "rates" = 1)) := by
  have hcreated : fs = FileState.absent →
      fs1 = FileState.present [⟨"rates", create.columns, []⟩] := by
    intro habs
    rw [habs, init_absent] at hfirst
    cases run1
    · simp only [Prod.mk.injEq, true_and] at hfirst
      exact hfirst.2.symm
    · simp at hfirst
    · simp at hfirst
  have hkept : fs ≠ FileState.absent → fs1 = fs := by
    intro hpres
    rw [init_not_absent run1 fs hpres] at hfirst
    simp only [Prod.mk.injEq, true_and] at hfirst
    exact hfirst.2.symm
  have hne : fs1 ≠ FileState.absent := by
    by_cases habs : fs = FileState.absent
    · rw [hcreated habs]; simp
    · rw [hkept habs]; exact habs
  have hsecond := init_not_absent run2 fs1 hne
  refine ⟨hsecond, hne, ?_, hkept, ?_, ?_⟩
  · intro habs
    refine ⟨hcreated habs, ?_⟩
    rw [hsecond, hcreated habs]
    rfl
  · intro db0 hfs hnone
    have hpres : fs ≠ FileState.absent := by rw [hfs]; simp
    rw [hsecond, hkept hpres, hfs]
    exact hnone
  · intro db1 hdb1 hwf
    have hle : db1.count "rates" ≤ 1 := by
      by_cases habs : fs = FileState.absent
      · rw [hcreated habs] at hdb1
        simp only [FileState.database, Option.some.injEq] at hdb1
        rw [← hdb1]
        exact Nat.le_of_eq (by rfl)
      · rw [hkept habs] at hdb1
        exact hwf db1 hdb1
    exact ⟨hle, fun hsome => Nat.le_antisymm hle (count_pos_of_table db1 "rates" hsome)⟩

/-- The witness of C7, amended: the first call creates the file, the second
finds it, even with an engine that could not carry out a create. -/
theorem init_twice_same_store_witness :
    maybeCreateSQLLiteDatabase CreateRun.completes FileState.absent =
        (some ⟨"sqlite3", "exchange.db"⟩, none, FileState.present freshDatabase) ∧
      maybeCreateSQLLiteDatabase CreateRun.cannotOpen (FileState.present freshDatabase) =
        (some ⟨"sqlite3", "exchange.db"⟩, none, FileState.present freshDatabase) :=
  ⟨by rfl, (init_twice_same_store CreateRun.completes CreateRun.cannotOpen FileState.absent
    (FileState.present freshDatabase) (some ⟨"sqlite3", "exchange.db"⟩) (by rfl)).1⟩

/-- C8, as stated, fails: on a database file that has no rates table the
initializer returns a handle and no error, and the store behind the handle
still has no rates table. -/
theorem init_on_file_without_table :
    maybeCreateSQLLiteDatabase CreateRun.completes (FileState.present []) =
        (some ⟨"sqlite3", "exchange.db"⟩, none, FileState.present []) ∧
      (FileState.present []).database.bind (fun db => db.table "rates") = none := by
  exact ⟨by rfl, by rfl⟩

/-- C8, amended: the initializer returns either a handle and no error or an
error and no handle. When the file was absent it returns without error
exactly when the engine carries out the create statement, and the store
then holds the rates table with the columns id, codein, name, high, low,
var_bid, pct_change, bid, ask, timestamp, create_date and no rows. When the
file was present (with or without the table) or not inspectable, it returns
the handle without error and leaves the store as it was, so the rates table
is behind the handle only if it was there before. An error is returned only
when the file was absent and the create failed; the file is then still
absent or is left behind empty, without the table. -/
theorem init_handle_and_store (run : CreateRun) (fs fs1 : FileState) (h : Option DB)
    (err : Option Error) (hcall : maybeCreateSQLLiteDatabase run fs = (h, err, fs1)) :
    (err = none → h = some ⟨"sqlite3", "exchange.db"⟩) ∧
      (err ≠ none → h = none ∧ fs = FileState.absent ∧
        (fs1 = FileState.absent ∨ fs1 = FileState.present [])) ∧
      (fs = FileState.absent → (err = none ↔ run = CreateRun.completes)) ∧
      (fs = FileState.absent → err = none →
        fs1 = FileState.present [⟨"rates", create.columns, []⟩] ∧
        create.columns.map (fun c => (c.name, c.type)) =
          [("id", "INTEGER"), ("codein", "TEXT"), ("name", "TEXT"), ("high", "TEXT"),
           ("low", "TEXT"), ("var_bid", "TEXT"), ("pct_change", "TEXT"), ("bid", "TEXT"),
           ("ask", "TEXT"), ("timestamp", "TEXT"), ("create_date", "TEXT")]) ∧
      (fs ≠ FileState.absent → err = none ∧ fs1 = fs) := by
  by_cases habs : fs = FileState.absent
  · subst habs
    rw [init_absent] at hcall
    cases run
    · simp only [Prod.mk.injEq] at hcall
      obtain ⟨hh, he, hf⟩ := hcall
      subst hh he hf
      simp
      rfl
    · simp only [Prod.mk.injEq] at hcall
      obtain ⟨hh, he, hf⟩ := hcall
      subst hh he hf
      simp
    · simp only [Prod.mk.injEq] at hcall
      obtain ⟨hh, he, hf⟩ := hcall
      subst hh he hf
      simp
  · rw [init_not_absent run fs habs] at hcall
    simp only [Prod.mk.injEq] at hcall
    obtain ⟨hh, he, hf⟩ := hcall
    subst hh he hf
    simp [habs]

/-- The witness of C8, amended: the call on a missing file. -/
theorem init_handle_and_store_witness :
    maybeCreateSQLLiteDatabase CreateRun.completes FileState.absent =
        (some ⟨"sqlite3", "exchange.db"⟩, none, FileState.present freshDatabase) ∧
      (FileState.present freshDatabase).database.bind (fun db => db.table "rates") =
        some ⟨"rates", create.columns, []⟩ ∧
      FileState.present freshDatabase = FileState.present [⟨"rates", create.columns, []⟩] :=
  ⟨by rfl, by rfl,
    ((init_handle_and_store CreateRun.completes FileState.absent
      (FileState.present freshDatabase) (some ⟨"sqlite3", "exchange.db"⟩) none
      (by rfl)).2.2.2.1 rfl rfl).1⟩

end Server
